import Mathlib

/-!
Shallow embedding of the solitaire engine in `src/main.py` (classes `Card`,
`CardPile`, `Solitaire`), restricted to the move-validation / history /
undo / completion core that the specification covers.

Modelling conventions:
* Python lists of cards become `List Card`, kept in source order: index 0 is
  the bottom of a pile and the last element is the top, exactly as in the
  Python code (`add_top` appends, `remove_top` pops the last element).
* Python integers become `Int` where the source can receive negative values
  (the `num_cards` argument, slice arguments of `cut`/`peek`), and `Nat`
  where the source only ever holds non-negative values (ranks, sizes).
  Python's `a == b - 1` on non-negative ints is rendered as `a + 1 = b`.
* Python's slice semantics are reproduced exactly, including the clamping
  behaviour of `items[-n:]` / `items[:-n]` for `n ≤ 0` and for `n` larger
  than the list length.
* An uncaught Python exception inside an engine method (e.g. `IndexError`
  from `peek` on an empty pile) is modelled by the result `MoveResult.error`
  (or a `false` success flag for `undo`), paired with the state at the
  moment the exception is raised.  In every such place the source raises
  before any pile mutation, except `undo`, which raises after `history.pop`;
  the embedding reproduces that.
* Pile objects, which Python passes by reference, are addressed by a
  `PileRef` into the board; `Solitaire.move`'s `origin_pile ==
  destination_pile` test uses `CardPile.__eq__`, which compares the `items`
  lists, and is rendered as equality of the referenced `items` lists.
* The history stack (`self.history`, appended/popped at the end) is a Lean
  list with the most recent entry at the head.
-/

inductive Suit where
  | clubs
  | diamonds
  | hearts
  | spades
deriving DecidableEq, Repr

/-- `Card` from the source: immutable rank and suit, mutable `hidden` flag
(face-up = not hidden). Freshly constructed cards are hidden. -/
structure Card where
  rank : Nat
  suit : Suit
  hidden : Bool
deriving DecidableEq, Repr

/-- `Card.is_red`: `self.suit in [Suit.HEARTS, Suit.DIAMONDS]`. -/
def Card.is_red (c : Card) : Bool :=
  match c.suit with
  | .hearts => true
  | .diamonds => true
  | _ => false

/-- `Card.is_black`: `self.suit in [Suit.CLUBS, Suit.SPADES]`. -/
def Card.is_black (c : Card) : Bool :=
  match c.suit with
  | .clubs => true
  | .spades => true
  | _ => false

/-- `CardPile` from the source: a list of cards, last element on top. -/
structure CardPile where
  items : List Card
deriving DecidableEq, Repr

namespace CardPile

/-- `CardPile.size`: `len(self.items)`. -/
def size (p : CardPile) : Nat := p.items.length

/-- `CardPile.is_empty`: `self.size() == 0`. -/
def is_empty (p : CardPile) : Bool := p.size == 0

/-- `CardPile.add_top`: `self.items.append(item)`. -/
def add_top (p : CardPile) (c : Card) : CardPile := ⟨p.items ++ [c]⟩

/-- `CardPile.extend`: `self.items.extend(items)`. -/
def extend (p : CardPile) (cs : List Card) : CardPile := ⟨p.items ++ cs⟩

/-- `CardPile.cut`:
`cut_items = self.items[-number:]; self.items = self.items[:-number]`,
returning `(cut_items, remaining pile)`.  Python slice semantics:
for `0 < number`, `items[-number:]` starts at `max(len - number, 0)`
(Nat subtraction), and for `number ≤ 0` the slice bound `-number` is a
non-negative index, so `items[-number:] = items.drop (-number)` — in
particular `cut 0` removes and returns the whole list. -/
def cut (p : CardPile) (number : Int) : List Card × CardPile :=
  if 0 < number then
    (p.items.drop (p.items.length - number.toNat),
     ⟨p.items.take (p.items.length - number.toNat)⟩)
  else
    (p.items.drop (-number).toNat, ⟨p.items.take (-number).toNat⟩)

/-- `CardPile.peek`: `self.items[-number]`, a single card (Python indexing,
not slicing).  `none` models the `IndexError` raised when the index is out
of range. -/
def peek (p : CardPile) (number : Int) : Option Card :=
  if 0 < number then
    if number ≤ (p.items.length : Int) then
      p.items.get? (p.items.length - number.toNat)
    else none
  else p.items.get? (-number).toNat

/-- The `hidden` flag of the top card (`self.items[-1].hidden`); only read
by the source on non-empty piles, the `false` default is dead code. -/
def topHiddenFlag (p : CardPile) : Bool :=
  match p.items.getLast? with
  | some c => c.hidden
  | none => false

/-- In-place `pile.peek().hidden = b` of the source: replace the top card's
`hidden` flag.  Only executed by the source on non-empty piles; the empty
case is dead code. -/
def setTopHidden (p : CardPile) (b : Bool) : CardPile :=
  match p.items.getLast? with
  | some c => ⟨p.items.dropLast ++ [{ c with hidden := b }]⟩
  | none => p

end CardPile

/-- The four foundation piles, `self.foundations = {suit: CardPile() for
suit in Suit}`, one field per suit. -/
structure Foundations where
  clubs : CardPile
  diamonds : CardPile
  hearts : CardPile
  spades : CardPile
deriving DecidableEq, Repr

def Foundations.get (f : Foundations) : Suit → CardPile
  | .clubs => f.clubs
  | .diamonds => f.diamonds
  | .hearts => f.hearts
  | .spades => f.spades

def Foundations.set (f : Foundations) (s : Suit) (p : CardPile) : Foundations :=
  match s with
  | .clubs => { f with clubs := p }
  | .diamonds => { f with diamonds := p }
  | .hearts => { f with hearts := p }
  | .spades => { f with spades := p }

/-- A reference to one of the board's piles.  The Python code passes the
pile objects themselves (`self.waste`, `self.foundations[suit]`,
`self.piles[i]`); the embedding addresses them by position in the board. -/
inductive PileRef where
  | stock
  | waste
  | foundation (s : Suit)
  | tableau (i : Nat)
deriving DecidableEq, Repr

/-- One history entry: the string `'d'` appended by `process_input` after a
draw, or the 4-tuple `(origin_pile, destination_pile, num_cards, hidden)`
appended by `move` / `move_to_foundation`. -/
inductive HistEntry where
  | draw
  | transfer (origin destination : PileRef) (num_cards : Int) (hidden : Bool)
deriving DecidableEq, Repr

/-- The `Solitaire` board state.  `move_number` and `game_state`, which
belong to the excluded interactive loop, and the derived constants
`num_cards` / `num_piles` are omitted; `num_piles` is `piles.length`. -/
structure Solitaire where
  stock : CardPile
  waste : CardPile
  foundations : Foundations
  piles : List CardPile
  history : List HistEntry
  max_rank : Nat
deriving DecidableEq, Repr

namespace Solitaire

def getPile (s : Solitaire) : PileRef → CardPile
  | .stock => s.stock
  | .waste => s.waste
  | .foundation suit => s.foundations.get suit
  | .tableau i => s.piles.getD i ⟨[]⟩

def setPile (s : Solitaire) (r : PileRef) (p : CardPile) : Solitaire :=
  match r with
  | .stock => { s with stock := p }
  | .waste => { s with waste := p }
  | .foundation suit => { s with foundations := s.foundations.set suit p }
  | .tableau i => { s with piles := s.piles.set i p }

/-- `tableau i` refers to an actual pile (Python pile objects always do;
the callers check `1 <= pile <= self.num_piles` before indexing). -/
def validRefB (s : Solitaire) : PileRef → Bool
  | .tableau i => decide (i < s.piles.length)
  | _ => true

/-- `Solitaire.is_valid_move(card1, card2)` (a static method).  As called by
`move`, `card1` is the base card of the moved run and `card2` is the
destination's top card. -/
def is_valid_move (card1 card2 : Card) : Bool :=
  if card1.hidden then false
  else if card1.is_red && card2.is_red then false
  else if card1.is_black && card2.is_black then false
  else if card1.rank + 1 != card2.rank then false
  else true

/-- Outcome of `move` / `move_to_foundation`: `accepted` = the mutation and
history push happened (Python returns `None` after the shared tail, or
`True` from `move_to_foundation`); `rejected` = an early `return` or
`return False` with no mutation; `error` = an uncaught `IndexError`. -/
inductive MoveResult where
  | accepted
  | rejected
  | error
deriving DecidableEq, Repr

/-- The shared accepted-move tail of `Solitaire.move` (and, with the
foundation as destination, of `move_to_foundation`):
`destination_pile.extend(origin_pile.cut(num_cards))` followed by the
history append and the reveal of the origin's newly exposed top card. -/
def commitMove (s : Solitaire) (origin destination : PileRef) (num_cards : Int) : Solitaire :=
  let o := s.getPile origin
  let d := s.getPile destination
  let c := o.cut num_cards
  let s1 := (s.setPile origin c.2).setPile destination (d.extend c.1)
  if c.2.is_empty then
    { s1 with history := .transfer origin destination num_cards false :: s1.history }
  else
    { s1.setPile origin (c.2.setTopHidden false) with
      history := .transfer origin destination num_cards c.2.topHiddenFlag :: s1.history }

/-- `Solitaire.move(origin_pile, destination_pile, num_cards)`.  The two
early `return`s and `return False` are `rejected`; the `IndexError`s that
`peek` can raise inside the conditions (notably `destination_pile.peek()`
on an empty destination whose base card is not of rank `max_rank`) are
`error`, raised before any mutation. -/
def move (s : Solitaire) (origin destination : PileRef) (num_cards : Int) :
    Solitaire × MoveResult :=
  let o := s.getPile origin
  let d := s.getPile destination
  if (o.size : Int) < num_cards then (s, .rejected)
  else if o.items = d.items then (s, .rejected)
  else if d.is_empty then
    match o.peek num_cards with
    | none => (s, .error)
    | some base =>
      if base.rank = s.max_rank then (s.commitMove origin destination num_cards, .accepted)
      else (s, .error)
  else
    match o.peek num_cards with
    | none => (s, .error)
    | some base =>
      match d.peek 1 with
      | none => (s, .error)
      | some top =>
        if is_valid_move base top then (s.commitMove origin destination num_cards, .accepted)
        else (s, .rejected)

/-- `Solitaire.move_to_foundation(pile)`: single-card move onto the
foundation of the top card's own suit.  `rejected` covers both the empty
pile early `return` and `return False`.  The accepted branch —
`self.foundations[suit].add_top(pile.remove_top())` followed by a history
append and reveal block that is verbatim the one in `move` — is a one-card
cut from the pile extended onto the suit's foundation, i.e. `commitMove`
with `num_cards = 1` and the foundation as destination. -/
def move_to_foundation (s : Solitaire) (pileRef : PileRef) : Solitaire × MoveResult :=
  let pile := s.getPile pileRef
  match pile.items.getLast? with
  | none => (s, .rejected)
  | some top =>
    let suit := top.suit
    let f := s.foundations.get suit
    let accept : Bool :=
      if f.is_empty then top.rank == 1
      else
        match f.items.getLast? with
        | some ftop => ftop.rank + 1 == top.rank
        | none => false
    if accept then (s.commitMove pileRef (.foundation suit) 1, .accepted)
    else (s, .rejected)

/-- `Solitaire.draw()`: one card from stock-top to waste-top, or, when the
stock is empty, the bulk recycle
`self.stock.extend(reversed(self.waste.cut(self.waste.size())))`. -/
def draw (s : Solitaire) : Solitaire :=
  if s.stock.is_empty then
    let c := s.waste.cut (s.waste.size : Int)
    { s with waste := c.2, stock := s.stock.extend c.1.reverse }
  else
    match s.stock.items.getLast? with
    | some c =>
      { s with stock := ⟨s.stock.items.dropLast⟩, waste := s.waste.add_top c }
    | none => s

/-- The draw command as dispatched by `process_input`:
`self.draw(); self.history.append('d')`.  (`draw` itself does not touch the
history; the `'d'` entry is pushed by its only caller.) -/
def drawAction (s : Solitaire) : Solitaire :=
  let s1 := s.draw
  { s1 with history := .draw :: s1.history }

/-- The `'d'` branch of `Solitaire.undo` after the pop: if the waste is
currently empty, recycle the whole stock back onto the waste in reversed
order, else move one card from waste-top back to stock-top. -/
def undoDrawStep (s0 : Solitaire) : Solitaire × Bool :=
  if s0.waste.is_empty then
    let c := s0.stock.cut (s0.stock.size : Int)
    ({ s0 with stock := c.2, waste := s0.waste.extend c.1.reverse }, true)
  else
    match s0.waste.items.getLast? with
    | some c =>
      ({ s0 with waste := ⟨s0.waste.items.dropLast⟩, stock := s0.stock.add_top c }, true)
    | none => (s0, false)

/-- The tuple branch of `Solitaire.undo` after the pop: re-hide the origin's
current top card when the entry recorded `hidden`, then cut `num_cards`
from the destination's top back onto the origin. -/
def undoTransferStep (s0 : Solitaire) (origin destination : PileRef)
    (num_cards : Int) (hidden : Bool) : Solitaire × Bool :=
  let step1 : Solitaire × Bool :=
    if hidden then
      let o := s0.getPile origin
      match o.items.getLast? with
      | none => (s0, false)
      | some _ => (s0.setPile origin (o.setTopHidden true), true)
    else (s0, true)
  if step1.2 then
    let s1 := step1.1
    let d := s1.getPile destination
    let c := d.cut num_cards
    let s2 := s1.setPile destination c.2
    let o1 := s2.getPile origin
    (s2.setPile origin (o1.extend c.1), true)
  else step1

/-- `Solitaire.undo()`.  The `Bool` is `false` exactly when the source would
raise an uncaught `IndexError` (`origin_pile.peek()` on an empty origin
while re-hiding); note the `history.pop()` has already happened at that
point, and the returned state reflects that. -/
def undo (s : Solitaire) : Solitaire × Bool :=
  match s.history with
  | [] => (s, true)
  | e :: rest =>
    let s0 : Solitaire := { s with history := rest }
    match e with
    | .draw => s0.undoDrawStep
    | .transfer origin destination num_cards hidden =>
      s0.undoTransferStep origin destination num_cards hidden

/-- `Solitaire.is_complete()`: stock empty, waste empty, and no hidden card
in any tableau pile (built, as in the source, by filtering each pile's
hidden cards into one list). -/
def is_complete (s : Solitaire) : Bool :=
  if !s.stock.is_empty then false
  else if !s.waste.is_empty then false
  else
    let hidden_cards :=
      s.piles.foldl (fun acc pile => acc ++ pile.items.filter (fun c => c.hidden)) []
    hidden_cards.isEmpty

end Solitaire

/-- The deck built by `Solitaire.__init__` before shuffling:
`[Card(rank, suit) for suit in Suit for rank in range(1, max_rank + 1)]`,
every card hidden. -/
def canonicalDeck (max_rank : Nat) : List Card :=
  ([Suit.clubs, Suit.diamonds, Suit.hearts, Suit.spades].map (fun suit =>
    (List.range max_rank).map (fun r => { rank := r + 1, suit := suit, hidden := true }))).flatten

/-- One iteration of the staircase deal: pop `k` cards one at a time from
the end of `deck` onto a fresh pile, then reveal the pile's top card
(`self.piles[pile].peek().hidden = False`).  Returns the pile and the
remaining deck. -/
def dealOne (deck : List Card) (k : Nat) : CardPile × List Card :=
  let pile : CardPile := ⟨(deck.drop (deck.length - k)).reverse⟩
  (pile.setTopHidden false, deck.take (deck.length - k))

/-- The staircase deal loop: pile `i` receives `i + 1` cards, for `n`
successive piles starting at index `i`. -/
def dealPiles (deck : List Card) (i : Nat) (n : Nat) : List CardPile × List Card :=
  match n with
  | 0 => ([], deck)
  | n + 1 =>
    let p := dealOne deck (i + 1)
    let rest := dealPiles p.2 (i + 1) n
    (p.1 :: rest.1, rest.2)

/-- `Solitaire.__init__(max_rank)` after the shuffle: `deck` is the shuffled
deck (the `random.shuffle` is modelled by taking the shuffled deck as a
parameter).  `num_piles = floor(sqrt(4 * max_rank))`; the staircase deal
fills the tableau, the remaining cards are revealed and become the stock. -/
def Solitaire.init (max_rank : Nat) (deck : List Card) : Solitaire :=
  let num_piles := Nat.sqrt (4 * max_rank)
  let d := dealPiles deck 0 num_piles
  { stock := ⟨d.2.map (fun c => { c with hidden := false })⟩
    waste := ⟨[]⟩
    foundations := ⟨⟨[]⟩, ⟨[]⟩, ⟨[]⟩, ⟨[]⟩⟩
    piles := d.1
    history := []
    max_rank := max_rank }

/-- One engine operation as issued by the interactive loop
(`process_input`): draw (`'d'`), undo (`'u'`/`'z'`), a pile-to-pile move, or
a move to the foundation.  For moves the loop checks
`1 <= pile <= self.num_piles` before indexing `self.piles`, which the
`validRefB` guard reproduces. -/
inductive GameOp where
  | draw
  | undo
  | move (origin destination : PileRef) (num_cards : Int)
  | toFoundation (pileRef : PileRef)
deriving DecidableEq, Repr

def Solitaire.applyOp (s : Solitaire) : GameOp → Solitaire
  | .draw => s.drawAction
  | .undo => s.undo.1
  | .move o d n => if s.validRefB o && s.validRefB d then (s.move o d n).1 else s
  | .toFoundation p => if s.validRefB p then (s.move_to_foundation p).1 else s

/-- The multiset of (rank, suit) pairs of a pile: the identity of its card
instances, ignoring the mutable `hidden` flag. -/
def pileKeys (p : CardPile) : Multiset (Nat × Suit) :=
  (p.items.map (fun c => (c.rank, c.suit)) : List (Nat × Suit))

/-- The multiset of all card instances on the board, across stock, waste,
the four foundations, and every tableau pile. -/
def Solitaire.allCards (s : Solitaire) : Multiset (Nat × Suit) :=
  pileKeys s.stock + pileKeys s.waste +
    (pileKeys s.foundations.clubs + pileKeys s.foundations.diamonds +
      pileKeys s.foundations.hearts + pileKeys s.foundations.spades) +
    (s.piles.map pileKeys).sum

def deckKeys (l : List Card) : Multiset (Nat × Suit) :=
  (l.map (fun c => (c.rank, c.suit)) : List (Nat × Suit))

/-! ## Basic pile lemmas -/

namespace CardPile

theorem is_empty_iff (p : CardPile) : p.is_empty = true ↔ p.items = [] := by
  simp [is_empty, size, List.length_eq_zero]

theorem is_empty_false_iff (p : CardPile) : p.is_empty = false ↔ p.items ≠ [] := by
  rw [← Bool.not_eq_true, not_iff_not]
  exact is_empty_iff p

theorem cut_snd_append_fst (p : CardPile) (n : Int) :
    (p.cut n).2.items ++ (p.cut n).1 = p.items := by
  unfold cut
  split <;> simp [List.take_append_drop]

/-- `cut` with a positive request bounded by the size removes exactly the top
`n` cards. -/
theorem cut_pos (p : CardPile) (n : Int) (h1 : 0 < n) :
    p.cut n = (p.items.drop (p.items.length - n.toNat),
               ⟨p.items.take (p.items.length - n.toNat)⟩) := by
  unfold cut
  rw [if_pos h1]

theorem length_cut_fst (p : CardPile) (n : Int) (h1 : 0 < n)
    (h2 : n ≤ (p.items.length : Int)) :
    (p.cut n).1.length = n.toNat := by
  rw [cut_pos p n h1]
  have hn : n.toNat ≤ p.items.length := by omega
  simp [List.length_drop]
  omega

theorem peek_pos (p : CardPile) (n : Int) (h1 : 0 < n)
    (h2 : n ≤ (p.items.length : Int)) :
    p.peek n = p.items.get? (p.items.length - n.toNat) := by
  unfold peek
  rw [if_pos h1, if_pos h2]

theorem peek_one (p : CardPile) : p.peek 1 = p.items.getLast? := by
  unfold peek
  rcases p with ⟨items⟩
  cases items with
  | nil => simp
  | cons a l =>
    have h2 : (1 : Int) ≤ ((a :: l).length : Int) := by
      have : 1 ≤ (a :: l).length := Nat.succ_le_succ (Nat.zero_le _)
      exact_mod_cast this
    rw [if_pos (by norm_num), if_pos h2]
    simp [List.getLast?_eq_getElem?]

theorem setTopHidden_items_ne_nil (p : CardPile) (b : Bool) (h : p.items ≠ []) :
    (p.setTopHidden b).items ≠ [] := by
  unfold setTopHidden
  cases hl : p.items.getLast? with
  | none => simpa using h
  | some c => simp

theorem setTopHidden_of_flag (p : CardPile) (b : Bool) (h : p.topHiddenFlag = b) :
    p.setTopHidden b = p := by
  unfold setTopHidden
  cases hl : p.items.getLast? with
  | none => rfl
  | some c =>
    have hb : c.hidden = b := by
      unfold topHiddenFlag at h
      rw [hl] at h
      exact h
    have hcc : ({ c with hidden := b } : Card) = c := by
      rw [← hb]
    show CardPile.mk (p.items.dropLast ++ [{ c with hidden := b }]) = p
    rw [hcc]
    have hd : p.items.dropLast ++ [c] = p.items :=
      List.dropLast_append_getLast? c (by rw [hl]; rfl)
    exact congrArg CardPile.mk hd

theorem setTopHidden_setTopHidden (p : CardPile) (a b : Bool) (h : p.items ≠ []) :
    (p.setTopHidden a).setTopHidden b = p.setTopHidden b := by
  unfold setTopHidden
  cases hl : p.items.getLast? with
  | none =>
    exfalso
    exact h (by simpa using hl)
  | some c => simp

theorem topHiddenFlag_setTopHidden (p : CardPile) (a : Bool) (h : p.items ≠ []) :
    (p.setTopHidden a).topHiddenFlag = a := by
  unfold setTopHidden topHiddenFlag
  cases hl : p.items.getLast? with
  | none =>
    exfalso
    exact h (by simpa using hl)
  | some c => simp

end CardPile

/-! ## Board access algebra -/

theorem list_set_getD {α : Type _} : ∀ (l : List α) (i : Nat) (d : α),
    l.set i (l.getD i d) = l
  | [], _, _ => rfl
  | _ :: _, 0, _ => rfl
  | a :: tl, i + 1, d => by
    simpa [List.set, List.getD_cons_succ] using congrArg (a :: ·) (list_set_getD tl i d)

namespace Solitaire

@[simp]
theorem history_setPile (s : Solitaire) (r : PileRef) (p : CardPile) :
    (s.setPile r p).history = s.history := by
  cases r <;> rfl

@[simp]
theorem max_rank_setPile (s : Solitaire) (r : PileRef) (p : CardPile) :
    (s.setPile r p).max_rank = s.max_rank := by
  cases r <;> rfl

@[simp]
theorem piles_length_setPile (s : Solitaire) (r : PileRef) (p : CardPile) :
    (s.setPile r p).piles.length = s.piles.length := by
  cases r <;> simp [setPile]

@[simp]
theorem validRefB_setPile (s : Solitaire) (r r' : PileRef) (p : CardPile) :
    (s.setPile r p).validRefB r' = s.validRefB r' := by
  cases r' with
  | tableau i => simp [validRefB]
  | _ => rfl

theorem getPile_setPile_same (s : Solitaire) (r : PileRef) (p : CardPile)
    (h : s.validRefB r = true) : (s.setPile r p).getPile r = p := by
  cases r with
  | stock => rfl
  | waste => rfl
  | foundation suit => cases suit <;> rfl
  | tableau i =>
    have hi : i < s.piles.length := by simpa [validRefB] using h
    simp [getPile, setPile, List.getD_eq_getElem?_getD, List.getElem?_set_self (by simpa using hi)]

theorem getPile_setPile_ne (s : Solitaire) (r r' : PileRef) (p : CardPile)
    (h : r ≠ r') : (s.setPile r p).getPile r' = s.getPile r' := by
  cases r with
  | stock => cases r' <;> first | rfl | exact absurd rfl h
  | waste => cases r' <;> first | rfl | exact absurd rfl h
  | foundation suit =>
    cases r' with
    | foundation suit' =>
      have hs : suit ≠ suit' := fun he => h (by rw [he])
      cases suit <;> cases suit' <;> first | rfl | exact absurd rfl hs
    | _ => rfl
  | tableau i =>
    cases r' with
    | tableau j =>
      have hij : i ≠ j := fun he => h (by rw [he])
      simp [getPile, setPile, List.getD_eq_getElem?_getD, List.getElem?_set_ne hij]
    | _ => rfl

theorem setPile_setPile_same (s : Solitaire) (r : PileRef) (p q : CardPile) :
    (s.setPile r p).setPile r q = s.setPile r q := by
  cases r with
  | stock => rfl
  | waste => rfl
  | foundation suit => cases suit <;> rfl
  | tableau i => simp [setPile, List.set_set]

theorem setPile_comm (s : Solitaire) (r r' : PileRef) (p q : CardPile)
    (h : r ≠ r') : (s.setPile r p).setPile r' q = (s.setPile r' q).setPile r p := by
  cases r with
  | stock => cases r' <;> first | exact absurd rfl h | rfl
  | waste => cases r' <;> first | exact absurd rfl h | rfl
  | foundation suit =>
    cases r' with
    | foundation suit' =>
      have hs : suit ≠ suit' := fun he => h (by rw [he])
      cases suit <;> cases suit' <;> first | exact absurd rfl hs | rfl
    | _ => rfl
  | tableau i =>
    cases r' with
    | tableau j =>
      have hij : i ≠ j := fun he => h (by rw [he])
      simp [setPile, List.set_comm _ _ _ hij]
    | _ => rfl

theorem setPile_getPile_self (s : Solitaire) (r : PileRef) :
    s.setPile r (s.getPile r) = s := by
  cases r with
  | stock => rfl
  | waste => rfl
  | foundation suit => cases s with
    | mk st w f pl h m => cases f with
      | mk c d hh sp => cases suit <;> rfl
  | tableau i =>
    show { s with piles := s.piles.set i (s.piles.getD i ⟨[]⟩) } = s
    rw [list_set_getD]

end Solitaire

/-! ## Characterization of `move` -/

namespace Solitaire

/-- Complete case analysis of `Solitaire.move`: either the move is accepted,
in which case the guards and exactly one of the two acceptance conditions
hold and the state is `commitMove`; or the state is returned unchanged with
a non-`accepted` result. -/
theorem move_spec (s : Solitaire) (o d : PileRef) (n : Int) :
    (¬(((s.getPile o).size : Int) < n) ∧ (s.getPile o).items ≠ (s.getPile d).items ∧
      (∃ base, (s.getPile o).peek n = some base ∧
         (((s.getPile d).is_empty = true ∧ base.rank = s.max_rank) ∨
          ((s.getPile d).is_empty = false ∧
            ∃ top, (s.getPile d).peek 1 = some top ∧ is_valid_move base top = true))) ∧
      s.move o d n = (s.commitMove o d n, .accepted)) ∨
    ((s.move o d n).1 = s ∧ (s.move o d n).2 ≠ .accepted) := by
  by_cases h1 : ((s.getPile o).size : Int) < n
  · right
    simp only [move, if_pos h1]
    exact ⟨by trivial, by simp⟩
  · by_cases h2 : (s.getPile o).items = (s.getPile d).items
    · right
      simp only [move, if_neg h1, if_pos h2]
      exact ⟨by trivial, by simp⟩
    · by_cases h3 : (s.getPile d).is_empty = true
      · cases hp : (s.getPile o).peek n with
        | none =>
          right
          simp only [move, if_neg h1, if_neg h2, if_pos h3, hp]
          exact ⟨by trivial, by simp⟩
        | some base =>
          by_cases h4 : base.rank = s.max_rank
          · left
            refine ⟨h1, h2, ⟨base, rfl, Or.inl ⟨h3, h4⟩⟩, ?_⟩
            simp only [move, if_neg h1, if_neg h2, if_pos h3, hp, if_pos h4]
          · right
            simp only [move, if_neg h1, if_neg h2, if_pos h3, hp, if_neg h4]
            exact ⟨by trivial, by simp⟩
      · have h3' : (s.getPile d).is_empty = false := by
          rwa [Bool.not_eq_true] at h3
        cases hp : (s.getPile o).peek n with
        | none =>
          right
          simp only [move, if_neg h1, if_neg h2, if_neg h3, hp]
          exact ⟨by trivial, by simp⟩
        | some base =>
          cases ht : (s.getPile d).peek 1 with
          | none =>
            right
            simp only [move, if_neg h1, if_neg h2, if_neg h3, hp, ht]
            exact ⟨by trivial, by simp⟩
          | some top =>
            by_cases h5 : is_valid_move base top = true
            · left
              refine ⟨h1, h2, ⟨base, rfl, Or.inr ⟨h3', top, rfl, h5⟩⟩, ?_⟩
              simp only [move, if_neg h1, if_neg h2, if_neg h3, hp, ht, if_pos h5]
            · right
              simp only [move, if_neg h1, if_neg h2, if_neg h3, hp, ht, if_neg h5]
              exact ⟨by trivial, by simp⟩

/-- Every non-accepted `move` leaves the state untouched. -/
theorem move_fst_of_not_accepted (s : Solitaire) (o d : PileRef) (n : Int)
    (h : (s.move o d n).2 ≠ .accepted) : (s.move o d n).1 = s := by
  rcases move_spec s o d n with ⟨_, _, _, he⟩ | ⟨he, _⟩
  · rw [he] at h
    simp at h
  · exact he

/-- An accepted `move` produced `commitMove` and passed the two guards. -/
theorem move_accepted_elim (s : Solitaire) (o d : PileRef) (n : Int)
    (h : (s.move o d n).2 = .accepted) :
    (s.move o d n).1 = s.commitMove o d n ∧ ¬(((s.getPile o).size : Int) < n) ∧
      (s.getPile o).items ≠ (s.getPile d).items ∧
      ∃ base, (s.getPile o).peek n = some base ∧
        (((s.getPile d).is_empty = true ∧ base.rank = s.max_rank) ∨
         ((s.getPile d).is_empty = false ∧
           ∃ top, (s.getPile d).peek 1 = some top ∧ is_valid_move base top = true)) := by
  rcases move_spec s o d n with ⟨h1, h2, hb, he⟩ | ⟨_, hn⟩
  · exact ⟨by rw [he], h1, h2, hb⟩
  · exact absurd h hn

/-- A `move` whose origin holds fewer than the requested number of cards is
rejected outright. -/
theorem move_of_size_lt (s : Solitaire) (o d : PileRef) (n : Int)
    (h : ((s.getPile o).size : Int) < n) : s.move o d n = (s, .rejected) := by
  simp only [move, if_pos h]

end Solitaire

/-! ## Undo inverts an accepted transfer commit -/

@[simp]
theorem CardPile.mk_items (p : CardPile) : (⟨p.items⟩ : CardPile) = p := rfl

theorem CardPile.cut_extend (D : CardPile) (T : List Card) (n : Int) (h1 : 0 < n)
    (hT : T.length = n.toNat) : (D.extend T).cut n = (T, D) := by
  rw [CardPile.extend, CardPile.cut_pos _ _ h1]
  have hl : ((⟨D.items ++ T⟩ : CardPile)).items.length - n.toNat = D.items.length := by
    show (D.items ++ T).length - n.toNat = D.items.length
    rw [List.length_append, hT]
    omega
  rw [hl]
  show (((D.items ++ T).drop D.items.length), (⟨(D.items ++ T).take D.items.length⟩ : CardPile))
      = (T, D)
  rw [List.drop_left, List.take_left]

namespace Solitaire

@[simp]
theorem getPile_withHistory (s : Solitaire) (h : List HistEntry) (r : PileRef) :
    (({ s with history := h } : Solitaire)).getPile r = s.getPile r := by
  cases r <;> rfl

@[simp]
theorem validRefB_withHistory (s : Solitaire) (h : List HistEntry) (r : PileRef) :
    (({ s with history := h } : Solitaire)).validRefB r = s.validRefB r := by
  cases r <;> rfl

theorem undo_history_transfer (t : Solitaire) (o d : PileRef) (n : Int) (hb : Bool)
    (rest : List HistEntry) (hh : t.history = .transfer o d n hb :: rest) :
    t.undo = ({ t with history := rest } : Solitaire).undoTransferStep o d n hb := by
  unfold undo
  rw [hh]

theorem undo_history_draw (t : Solitaire) (rest : List HistEntry)
    (hh : t.history = .draw :: rest) :
    t.undo = ({ t with history := rest } : Solitaire).undoDrawStep := by
  unfold undo
  rw [hh]

theorem withHistory_eq_self (t : Solitaire) (h : List HistEntry) (hh : t.history = h) :
    ({ t with history := h } : Solitaire) = t := by
  cases t
  cases hh
  rfl

/-- `undo` on a state whose history starts with a transfer entry runs the
transfer branch on the popped state. -/
theorem undo_withHistory_transfer (t : Solitaire) (o d : PileRef) (n : Int) (hb : Bool)
    (rest : List HistEntry) (hrest : t.history = rest) :
    ({ t with history := .transfer o d n hb :: rest } : Solitaire).undo =
      t.undoTransferStep o d n hb := by
  unfold undo
  show ({ ({ t with history := .transfer o d n hb :: rest } : Solitaire) with
      history := rest } : Solitaire).undoTransferStep o d n hb = t.undoTransferStep o d n hb
  congr 1
  exact withHistory_eq_self t rest hrest

/-- Re-hiding the origin top first and then performing the cut-back is the
same as the full `hidden = true` branch of `undoTransferStep`. -/
theorem undoTransferStep_hidden_true (t : Solitaire) (o d : PileRef) (n : Int) (c : Card)
    (hc : (t.getPile o).items.getLast? = some c) :
    t.undoTransferStep o d n true =
      (t.setPile o ((t.getPile o).setTopHidden true)).undoTransferStep o d n false := by
  simp only [undoTransferStep, hc]
  simp

/-- After `commitMove` of an in-range transfer (positive count within the
origin's size, distinct piles), `undo` restores the original state
exactly. -/
theorem undo_commitMove (s : Solitaire) (o d : PileRef) (n : Int)
    (hvo : s.validRefB o = true) (hvd : s.validRefB d = true) (hne : o ≠ d)
    (h1 : 0 < n) (h2 : n ≤ (((s.getPile o).size : Int))) :
    (s.commitMove o d n).undo = (s, true) := by
  have hnle : n.toNat ≤ (s.getPile o).items.length := by
    have : ((s.getPile o).items.length : Int) = ((s.getPile o).size : Int) := rfl
    omega
  have hcut : (s.getPile o).cut n =
      ((s.getPile o).items.drop ((s.getPile o).items.length - n.toNat),
       ⟨(s.getPile o).items.take ((s.getPile o).items.length - n.toNat)⟩) :=
    CardPile.cut_pos _ n h1
  set k := (s.getPile o).items.length - n.toNat with hk
  set T := (s.getPile o).items.drop k with hTdef
  set R := (s.getPile o).items.take k with hRdef
  have hTlen : T.length = n.toNat := by
    rw [hTdef, List.length_drop]
    omega
  have hRT : R ++ T = (s.getPile o).items := List.take_append_drop k (s.getPile o).items
  -- the committed state, before the history push and the reveal
  set A := s.setPile o ⟨R⟩ with hA
  set s1 := A.setPile d ((s.getPile d).extend T) with hs1
  have hs1hist : s1.history = s.history := by
    rw [hs1, hA]
    simp
  have hvo1 : s1.validRefB o = true := by
    rw [hs1, hA]
    simpa using hvo
  have hvd1 : s1.validRefB d = true := by
    rw [hs1, hA]
    simpa using hvd
  have hgetd1 : s1.getPile d = (s.getPile d).extend T := by
    rw [hs1]
    exact getPile_setPile_same A d _ (by rw [hA]; simpa using hvd)
  have hgeto1 : s1.getPile o = ⟨R⟩ := by
    rw [hs1, getPile_setPile_ne A d o _ (Ne.symm hne), hA]
    exact getPile_setPile_same s o _ hvo
  -- the endgame: cutting `n` back from the destination restores `s`
  have hfinal :
      ((s1.setPile d ((s1.getPile d).cut n).2).setPile o
        (((s1.setPile d ((s1.getPile d).cut n).2).getPile o).extend ((s1.getPile d).cut n).1))
      = s := by
    rw [hgetd1, CardPile.cut_extend _ _ _ h1 hTlen]
    have hs2 : s1.setPile d (s.getPile d) = A := by
      rw [hs1, setPile_setPile_same]
      have : A.getPile d = s.getPile d := by
        rw [hA]
        exact getPile_setPile_ne s o d _ hne
      rw [← this, setPile_getPile_self]
    show (s1.setPile d (s.getPile d)).setPile o
        (((s1.setPile d (s.getPile d)).getPile o).extend T) = s
    rw [hs2]
    have hAo : A.getPile o = ⟨R⟩ := by
      rw [hA]
      exact getPile_setPile_same s o _ hvo
    rw [hAo]
    show (A.setPile o ⟨R ++ T⟩) = s
    rw [hRT, hA, setPile_setPile_same, CardPile.mk_items, setPile_getPile_self]
  have hs1o : s1.setPile o ⟨R⟩ = s1 := by
    rw [hs1, setPile_comm A d o _ _ (Ne.symm hne), hA, setPile_setPile_same]
  -- main reduction once the re-hide step is out of the way
  have hmain : s1.undoTransferStep o d n false = (s, true) := by
    show ((s1.setPile d ((s1.getPile d).cut n).2).setPile o
        (((s1.setPile d ((s1.getPile d).cut n).2).getPile o).extend ((s1.getPile d).cut n).1),
        true) = (s, true)
    rw [hfinal]
  rw [commitMove]
  simp only [hcut]
  by_cases hRe : R = []
  · have hemp : ((⟨R⟩ : CardPile)).is_empty = true := by
      simp [CardPile.is_empty, CardPile.size, hRe]
    rw [if_pos hemp]
    rw [undo_withHistory_transfer _ o d n _ _ (by simp)]
    show s1.undoTransferStep o d n false = (s, true)
    exact hmain
  · have hemp : ¬(((⟨R⟩ : CardPile)).is_empty = true) := by
      simp [CardPile.is_empty, CardPile.size, hRe]
    rw [if_neg hemp]
    rw [undo_withHistory_transfer _ o d n _ _ (by simp)]
    show (s1.setPile o ((⟨R⟩ : CardPile).setTopHidden false)).undoTransferStep o d n
        ((⟨R⟩ : CardPile).topHiddenFlag) = (s, true)
    cases hb0 : (⟨R⟩ : CardPile).topHiddenFlag with
    | false =>
      rw [CardPile.setTopHidden_of_flag _ _ hb0, hs1o]
      exact hmain
    | true =>
      have hRne : ((⟨R⟩ : CardPile)).items ≠ [] := hRe
      have hBo : (s1.setPile o ((⟨R⟩ : CardPile).setTopHidden false)).getPile o
          = (⟨R⟩ : CardPile).setTopHidden false :=
        getPile_setPile_same s1 o _ (by simpa using hvo1)
      have hne2 : (((⟨R⟩ : CardPile).setTopHidden false)).items ≠ [] :=
        CardPile.setTopHidden_items_ne_nil _ _ hRne
      obtain ⟨cl, hcl⟩ : ∃ cl,
          ((((⟨R⟩ : CardPile).setTopHidden false)).items).getLast? = some cl := by
        cases hgl : (((⟨R⟩ : CardPile).setTopHidden false)).items.getLast? with
        | none =>
          rw [List.getLast?_eq_none_iff] at hgl
          exact absurd hgl hne2
        | some cl => exact ⟨cl, rfl⟩
      rw [undoTransferStep_hidden_true _ o d n cl (by rw [hBo]; exact hcl)]
      rw [hBo, CardPile.setTopHidden_setTopHidden _ _ _ hRne,
          CardPile.setTopHidden_of_flag _ _ hb0, setPile_setPile_same, hs1o]
      exact hmain

end Solitaire

/-! ## Undo inverts a draw -/

theorem CardPile.cut_size (p : CardPile) : p.cut (p.size : Int) = (p.items, ⟨[]⟩) := by
  unfold CardPile.cut
  by_cases h : 0 < ((p.size : Int))
  · rw [if_pos h]
    have h0 : p.items.length - ((p.size : Int)).toNat = 0 := by
      simp [CardPile.size]
    rw [h0]
    simp
  · rw [if_neg h]
    have h0 : p.items = [] := by
      have hlen : ((p.items.length : Int)) ≤ 0 := by
        simpa [CardPile.size] using h
      have : p.items.length = 0 := by omega
      exact List.length_eq_zero.mp this
    simp [h0]

namespace Solitaire

/-- `undo` on a state whose history starts with a `'d'` entry runs the draw
branch on the popped state. -/
theorem undo_withHistory_draw (t : Solitaire) (rest : List HistEntry)
    (hrest : t.history = rest) :
    ({ t with history := .draw :: rest } : Solitaire).undo = t.undoDrawStep := by
  unfold undo
  show ({ ({ t with history := .draw :: rest } : Solitaire) with
      history := rest } : Solitaire).undoDrawStep = t.undoDrawStep
  congr 1
  exact withHistory_eq_self t rest hrest

/-- The recycle branch of the draw-undo: with an empty waste, the whole
stock goes back to the waste in reversed order. -/
theorem undoDrawStep_recycle (t : Solitaire) (hw : t.waste.items = []) :
    t.undoDrawStep = (({ t with stock := ⟨[]⟩, waste := ⟨t.stock.items.reverse⟩ } : Solitaire),
      true) := by
  unfold undoDrawStep
  rw [if_pos ((CardPile.is_empty_iff _).mpr hw)]
  rw [CardPile.cut_size]
  have hwx : t.waste.extend t.stock.items.reverse = (⟨t.stock.items.reverse⟩ : CardPile) := by
    show (⟨t.waste.items ++ t.stock.items.reverse⟩ : CardPile) = _
    rw [hw, List.nil_append]
  show (({ t with stock := (⟨[]⟩ : CardPile),
                  waste := t.waste.extend t.stock.items.reverse } : Solitaire), true) = _
  rw [hwx]

/-- The single-card branch of the draw-undo: with a non-empty waste, its top
card goes back on top of the stock. -/
theorem undoDrawStep_waste_cons (t : Solitaire) (W : List Card) (c : Card)
    (hw : t.waste.items = W ++ [c]) :
    t.undoDrawStep = (({ t with waste := ⟨W⟩, stock := t.stock.add_top c } : Solitaire),
      true) := by
  unfold undoDrawStep
  rw [if_neg (by simp [CardPile.is_empty, CardPile.size, hw])]
  rw [hw]
  rw [List.getLast?_concat]
  show (({ t with waste := ⟨(W ++ [c]).dropLast⟩, stock := t.stock.add_top c } : Solitaire), true)
    = _
  rw [List.dropLast_concat]

/-- Undoing immediately after the draw command restores the state exactly,
whichever of the two draw branches ran. -/
theorem undo_drawAction (s : Solitaire) : s.drawAction.undo = (s, true) := by
  unfold drawAction
  rw [undo_withHistory_draw _ _ rfl]
  simp only [draw]
  by_cases hst : s.stock.is_empty = true
  · rw [if_pos hst]
    have hsi : s.stock.items = [] := (CardPile.is_empty_iff _).mp hst
    rw [CardPile.cut_size]
    rw [undoDrawStep_recycle _ (by rfl)]
    show (({ s with stock := (⟨[]⟩ : CardPile),
                    waste := ⟨((s.stock.extend s.waste.items.reverse)).items.reverse⟩ }
        : Solitaire), true)
      = (s, true)
    have h1 : ((s.stock.extend s.waste.items.reverse)).items.reverse = s.waste.items := by
      show (s.stock.items ++ s.waste.items.reverse).reverse = s.waste.items
      rw [hsi, List.nil_append, List.reverse_reverse]
    rw [h1]
    have h2 : ((⟨[]⟩ : CardPile)) = s.stock := by rw [← hsi]
    rw [h2]
  · rw [if_neg hst]
    have hne : s.stock.items ≠ [] := by
      intro he
      exact hst ((CardPile.is_empty_iff _).mpr he)
    obtain ⟨c, hc⟩ : ∃ c, s.stock.items.getLast? = some c := by
      cases hgl : s.stock.items.getLast? with
      | none =>
        rw [List.getLast?_eq_none_iff] at hgl
        exact absurd hgl hne
      | some c => exact ⟨c, rfl⟩
    rw [hc]
    rw [undoDrawStep_waste_cons _ s.waste.items c (by rfl)]
    show (({ s with waste := ⟨s.waste.items⟩,
                    stock := (⟨s.stock.items.dropLast⟩ : CardPile).add_top c }
        : Solitaire), true) = (s, true)
    have h1 : ((⟨s.stock.items.dropLast⟩ : CardPile)).add_top c = s.stock := by
      show (⟨s.stock.items.dropLast ++ [c]⟩ : CardPile) = s.stock
      rw [List.dropLast_append_getLast? c (by rw [hc]; rfl)]
    rw [h1]

end Solitaire

/-! ## Characterization of `move_to_foundation` and `commitMove` effects -/

theorem CardPile.cut_one (p : CardPile) (top : Card) (h : p.items.getLast? = some top) :
    p.cut 1 = ([top], ⟨p.items.dropLast⟩) := by
  have hsplit : p.items.dropLast ++ [top] = p.items :=
    List.dropLast_append_getLast? top (by rw [h]; rfl)
  rw [CardPile.cut_pos _ _ (by norm_num)]
  conv_lhs => rw [← hsplit]
  have hlen : (p.items.dropLast ++ [top]).length - ((1 : Int)).toNat
      = p.items.dropLast.length := by
    simp
  rw [hlen, List.drop_left, List.take_left]

theorem CardPile.setTopHidden_of_nil (p : CardPile) (b : Bool) (h : p.items = []) :
    p.setTopHidden b = p := by
  unfold CardPile.setTopHidden
  rw [show p.items.getLast? = none from by rw [h]; rfl]

namespace Solitaire

/-- Complete case analysis of `move_to_foundation`: either it is accepted,
with the foundation rule satisfied and the state given by a one-card
`commitMove` onto the suit's foundation, or the state is unchanged. -/
theorem mtf_spec (s : Solitaire) (p : PileRef) :
    (∃ top, (s.getPile p).items.getLast? = some top ∧
      ((((s.foundations.get top.suit)).is_empty = true ∧ top.rank = 1) ∨
        (∃ ftop, ((s.foundations.get top.suit)).items.getLast? = some ftop ∧
          ftop.rank + 1 = top.rank)) ∧
      s.move_to_foundation p = (s.commitMove p (.foundation top.suit) 1, .accepted)) ∨
    ((s.move_to_foundation p).1 = s ∧ (s.move_to_foundation p).2 ≠ .accepted) := by
  cases htop : (s.getPile p).items.getLast? with
  | none =>
    right
    simp only [move_to_foundation, htop]
    exact ⟨by trivial, by simp⟩
  | some top =>
    by_cases hfe : ((s.foundations.get top.suit)).is_empty = true
    · by_cases hr : top.rank = 1
      · left
        refine ⟨top, rfl, Or.inl ⟨hfe, hr⟩, ?_⟩
        simp only [move_to_foundation, htop, if_pos hfe, hr]
        simp
      · right
        have hb : (top.rank == 1) = false := by
          simp [hr]
        simp only [move_to_foundation, htop, if_pos hfe, hb]
        exact ⟨by trivial, by simp⟩
    · cases hft : ((s.foundations.get top.suit)).items.getLast? with
      | none =>
        right
        simp only [move_to_foundation, htop, if_neg hfe, hft]
        exact ⟨by trivial, by simp⟩
      | some ftop =>
        by_cases hrr : ftop.rank + 1 = top.rank
        · left
          refine ⟨top, rfl, Or.inr ⟨ftop, hft, hrr⟩, ?_⟩
          simp only [move_to_foundation, htop, if_neg hfe, hft, hrr]
          simp
        · right
          have hb : (ftop.rank + 1 == top.rank) = false := by
            simp [hrr]
          simp only [move_to_foundation, htop, if_neg hfe, hft, hb]
          exact ⟨by trivial, by simp⟩

theorem mtf_fst_of_not_accepted (s : Solitaire) (p : PileRef)
    (h : (s.move_to_foundation p).2 ≠ .accepted) : (s.move_to_foundation p).1 = s := by
  rcases mtf_spec s p with ⟨top, _, _, he⟩ | ⟨he, _⟩
  · rw [he] at h
    simp at h
  · exact he

/-- The history entry pushed by `commitMove` records the hidden-flag of the
origin's newly exposed top card (`false` when the origin became empty). -/
theorem commitMove_history (s : Solitaire) (o d : PileRef) (n : Int) :
    (s.commitMove o d n).history =
      .transfer o d n ((((s.getPile o).cut n).2).topHiddenFlag) :: s.history := by
  unfold commitMove
  by_cases he : ((((s.getPile o).cut n).2)).is_empty = true
  · rw [if_pos he]
    have hi : ((((s.getPile o).cut n).2)).items = [] := (CardPile.is_empty_iff _).mp he
    have hf : ((((s.getPile o).cut n).2)).topHiddenFlag = false := by
      unfold CardPile.topHiddenFlag
      rw [show ((((s.getPile o).cut n).2)).items.getLast? = none from by rw [hi]; rfl]
    rw [hf]
    simp
  · rw [if_neg he]
    simp

theorem commitMove_getPile_o (s : Solitaire) (o d : PileRef) (n : Int)
    (hvo : s.validRefB o = true) (hne : o ≠ d) :
    (s.commitMove o d n).getPile o = ((((s.getPile o).cut n).2)).setTopHidden false := by
  unfold commitMove
  by_cases he : ((((s.getPile o).cut n).2)).is_empty = true
  · rw [if_pos he]
    have hi : ((((s.getPile o).cut n).2)).items = [] := (CardPile.is_empty_iff _).mp he
    rw [CardPile.setTopHidden_of_nil _ _ hi]
    show (((s.setPile o (((s.getPile o).cut n).2)).setPile d
        ((s.getPile d).extend (((s.getPile o).cut n).1))).getPile o) = ((s.getPile o).cut n).2
    rw [getPile_setPile_ne _ d o _ (Ne.symm hne), getPile_setPile_same _ o _ hvo]
  · rw [if_neg he]
    show ((((s.setPile o (((s.getPile o).cut n).2)).setPile d
        ((s.getPile d).extend (((s.getPile o).cut n).1))).setPile o
        (((((s.getPile o).cut n).2)).setTopHidden false)).getPile o) = _
    rw [getPile_setPile_same _ o _ (by simp [hvo])]

theorem commitMove_getPile_d (s : Solitaire) (o d : PileRef) (n : Int)
    (hvd : s.validRefB d = true) (hne : o ≠ d) :
    (s.commitMove o d n).getPile d = (s.getPile d).extend (((s.getPile o).cut n).1) := by
  unfold commitMove
  by_cases he : ((((s.getPile o).cut n).2)).is_empty = true
  · rw [if_pos he]
    show (((s.setPile o (((s.getPile o).cut n).2)).setPile d
        ((s.getPile d).extend (((s.getPile o).cut n).1))).getPile d) = _
    rw [getPile_setPile_same _ d _ (by simp [hvd])]
  · rw [if_neg he]
    show ((((s.setPile o (((s.getPile o).cut n).2)).setPile d
        ((s.getPile d).extend (((s.getPile o).cut n).1))).setPile o
        (((((s.getPile o).cut n).2)).setTopHidden false)).getPile d) = _
    rw [getPile_setPile_ne _ o d _ hne, getPile_setPile_same _ d _ (by simp [hvd])]

end Solitaire

/-! ## Further reduction lemmas -/

theorem Card.is_black_eq_not_is_red (c : Card) : c.is_black = !c.is_red := by
  rcases c with ⟨r, su, h⟩
  cases su <;> rfl

theorem Solitaire.is_valid_move_iff (c1 c2 : Card) :
    Solitaire.is_valid_move c1 c2 = true ↔
      (c1.hidden = false ∧ ¬(c1.is_red = c2.is_red) ∧ c1.rank + 1 = c2.rank) := by
  rcases c1 with ⟨r1, s1, h1⟩
  rcases c2 with ⟨r2, s2, h2⟩
  cases s1 <;> cases s2 <;> cases h1 <;>
    simp [Solitaire.is_valid_move, Card.is_red, Card.is_black]

theorem Solitaire.move_reduce_nonempty (s : Solitaire) (o d : PileRef) (n : Int)
    (base top : Card)
    (h1 : ¬(((s.getPile o).size : Int) < n))
    (h2 : (s.getPile o).items ≠ (s.getPile d).items)
    (h3 : (s.getPile d).is_empty = false)
    (hp : (s.getPile o).peek n = some base)
    (ht : (s.getPile d).peek 1 = some top) :
    s.move o d n = if Solitaire.is_valid_move base top = true
      then (s.commitMove o d n, .accepted) else (s, .rejected) := by
  have h3' : ¬((s.getPile d).is_empty = true) := by
    rw [h3]
    exact Bool.false_ne_true
  simp only [Solitaire.move, if_neg h1, if_neg h2, if_neg h3', hp, ht]

theorem Solitaire.mtf_reduce (s : Solitaire) (p : PileRef) (top : Card)
    (htop : (s.getPile p).items.getLast? = some top) :
    s.move_to_foundation p =
      (if (if ((s.foundations.get top.suit)).is_empty then (top.rank == 1)
          else match ((s.foundations.get top.suit)).items.getLast? with
            | some ftop => (ftop.rank + 1 == top.rank)
            | none => false) = true
        then (s.commitMove p (.foundation top.suit) 1, .accepted)
        else (s, .rejected)) := by
  simp only [Solitaire.move_to_foundation, htop]

/-! ## Claim C1 -/

/-- Claim C1 (amended: positive transfer count): for any accepted
`move` with `num_cards ≥ 1` between actual piles, any accepted
`move_to_foundation`, and any draw command, invoking `undo()` immediately
afterwards returns exactly the prior state: every pile holds the same cards
in the same order with the same `hidden` flags, and the history stack is
restored to its prior contents (in particular its prior length). -/
theorem claim_c1_undo_inverts (s : Solitaire) :
    (∀ (o d : PileRef) (n : Int), s.validRefB o = true → s.validRefB d = true → 1 ≤ n →
      (s.move o d n).2 = .accepted → (s.move o d n).1.undo = (s, true)) ∧
    (∀ p : PileRef, s.validRefB p = true →
      (s.move_to_foundation p).2 = .accepted → (s.move_to_foundation p).1.undo = (s, true)) ∧
    s.drawAction.undo = (s, true) := by
  refine ⟨?_, ?_, Solitaire.undo_drawAction s⟩
  · intro o d n hvo hvd hn hacc
    obtain ⟨heq, hsz, hneq, -⟩ := Solitaire.move_accepted_elim s o d n hacc
    rw [heq]
    have hne : o ≠ d := by
      intro he
      exact hneq (by rw [he])
    exact Solitaire.undo_commitMove s o d n hvo hvd hne (by omega) (by omega)
  · intro p hvp hacc
    rcases Solitaire.mtf_spec s p with ⟨top, htop, hcond, he⟩ | ⟨-, hn⟩
    · have heq : (s.move_to_foundation p).1 = s.commitMove p (.foundation top.suit) 1 := by
        rw [he]
      rw [heq]
      have hnonempty : (s.getPile p).items ≠ [] := by
        intro hnil
        rw [hnil] at htop
        simp at htop
      have hsz : (1 : Int) ≤ (((s.getPile p).size : Int)) := by
        have hpos : 0 < (s.getPile p).items.length := List.length_pos.mpr hnonempty
        have hpos' : 0 < (s.getPile p).size := hpos
        omega
      have hne : p ≠ .foundation top.suit := by
        intro he2
        have hgp : s.getPile p = s.foundations.get top.suit := by
          rw [he2]
          rfl
        rcases hcond with ⟨hfe, -⟩ | ⟨ftop, hft, hrr⟩
        · have hnil : ((s.foundations.get top.suit)).items = [] :=
            (CardPile.is_empty_iff _).mp hfe
          rw [hgp, hnil] at htop
          simp at htop
        · rw [hgp] at htop
          rw [htop] at hft
          have hte : top = ftop := by injection hft
          rw [hte] at hrr
          omega
      exact Solitaire.undo_commitMove s p (.foundation top.suit) 1 hvp (by rfl) hne
        (by norm_num) hsz
    · exact absurd hacc hn

/-- Claim C1 counterexample, refuting the unamended claim: a `move` with
count 0 — which the engine accepts, because Python's `items[-0:]` slicing
makes `cut(0)` relocate the whole origin pile — is not inverted by `undo`:
undoing cuts `0` cards, i.e. all of the destination, back onto the origin,
so the original destination card ends up on the origin pile. -/
theorem claim_c1_counterexample :
    (let sC : Solitaire := ⟨⟨[]⟩, ⟨[]⟩, ⟨⟨[]⟩, ⟨[]⟩, ⟨[]⟩, ⟨[]⟩⟩,
        [⟨[⟨6, .hearts, false⟩]⟩, ⟨[⟨7, .spades, false⟩]⟩], [], 13⟩;
      (sC.move (.tableau 0) (.tableau 1) 0).2 = .accepted ∧
        ((sC.move (.tableau 0) (.tableau 1) 0).1.undo).1 ≠ sC) := by
  exact ⟨by decide, by decide⟩

/-- Witness for claim C1 at a concrete board: a 6♡→7♠ tableau move, an
ace-to-foundation move from the waste, and a draw are each undone
exactly. -/
theorem claim_c1_witness :
    (let sW : Solitaire := ⟨⟨[⟨2, .clubs, false⟩]⟩, ⟨[⟨1, .hearts, false⟩]⟩,
        ⟨⟨[]⟩, ⟨[]⟩, ⟨[]⟩, ⟨[]⟩⟩, [⟨[⟨6, .hearts, false⟩]⟩, ⟨[⟨7, .spades, false⟩]⟩], [], 13⟩;
      ((sW.move (.tableau 0) (.tableau 1) 1).2 = .accepted ∧
        (sW.move (.tableau 0) (.tableau 1) 1).1.undo = (sW, true)) ∧
      ((sW.move_to_foundation .waste).2 = .accepted ∧
        (sW.move_to_foundation .waste).1.undo = (sW, true)) ∧
      sW.drawAction.undo = (sW, true)) := by
  refine ⟨⟨by decide, ?_⟩, ⟨by decide, ?_⟩, ?_⟩
  · exact (claim_c1_undo_inverts _).1 (.tableau 0) (.tableau 1) 1
      (by decide) (by decide) (by decide) (by decide)
  · exact (claim_c1_undo_inverts _).2.1 .waste (by decide) (by decide)
  · exact (claim_c1_undo_inverts _).2.2

/-! ## Claim C3 -/

/-- Claim C3 (amended): every transfer request that is not accepted — guard
failures (insufficient cards, source content-equal to destination), a
failed validation against a non-empty destination, and the `IndexError`
raised when a non-`max_rank` card is aimed at an empty destination — leaves
the whole state unchanged: no pile contents, no `hidden` flag and no
history entry changes.  (The unamended claim's "without raising" part is
refuted by `claim_c3_counterexample`.) -/
theorem claim_c3_reject_no_mutation (s : Solitaire) (o d : PileRef) (n : Int)
    (h : (s.move o d n).2 ≠ .accepted) : (s.move o d n).1 = s :=
  Solitaire.move_fst_of_not_accepted s o d n h

/-- Claim C3 counterexample: moving a rank-5 card onto an empty tableau
column is not a silent rejection — `is_valid_move` is called with
`destination_pile.peek()` on the empty destination, raising an
`IndexError` (modelled by `MoveResult.error`), which only the caller's
`except` clause swallows.  The state is nevertheless unchanged. -/
theorem claim_c3_counterexample :
    (let sB : Solitaire := ⟨⟨[]⟩, ⟨[]⟩, ⟨⟨[]⟩, ⟨[]⟩, ⟨[]⟩, ⟨[]⟩⟩,
        [⟨[⟨5, .hearts, false⟩]⟩, ⟨[]⟩], [], 13⟩;
      sB.move (.tableau 0) (.tableau 1) 1 = (sB, .error)) := by
  decide

/-- Witness for claim C3 at concrete inputs: an illegal red-6-on-red-7
placement, a move of two cards from a one-card pile, and a move of a pile
onto itself are all non-accepted and mutate nothing. -/
theorem claim_c3_witness :
    (let sB : Solitaire := ⟨⟨[]⟩, ⟨[]⟩, ⟨⟨[]⟩, ⟨[]⟩, ⟨[]⟩, ⟨[]⟩⟩,
        [⟨[⟨6, .hearts, false⟩]⟩, ⟨[⟨7, .diamonds, false⟩]⟩], [], 13⟩;
      ((sB.move (.tableau 0) (.tableau 1) 1).2 ≠ .accepted ∧
        (sB.move (.tableau 0) (.tableau 1) 1).1 = sB) ∧
      ((sB.move (.tableau 0) (.tableau 1) 2).2 ≠ .accepted ∧
        (sB.move (.tableau 0) (.tableau 1) 2).1 = sB) ∧
      ((sB.move (.tableau 0) (.tableau 0) 1).2 ≠ .accepted ∧
        (sB.move (.tableau 0) (.tableau 0) 1).1 = sB)) := by
  refine ⟨⟨by decide, ?_⟩, ⟨by decide, ?_⟩, ⟨by decide, ?_⟩⟩
  · exact claim_c3_reject_no_mutation _ (.tableau 0) (.tableau 1) 1 (by decide)
  · exact claim_c3_reject_no_mutation _ (.tableau 0) (.tableau 1) 2 (by decide)
  · exact claim_c3_reject_no_mutation _ (.tableau 0) (.tableau 0) 1 (by decide)

/-! ## Claim C5 -/

/-- Claim C5 (amended: non-empty destinations only): for every accepted
transfer onto a non-empty destination, the base card of the moved run
(`origin_pile.peek(num_cards)`) is face-up at the moment the move is
accepted; `is_valid_move` rejects a face-down base.  Transfers onto an
empty destination check only `rank == max_rank` and can move a face-down
base (see `claim_c5_counterexample`). -/
theorem claim_c5_base_face_up (s : Solitaire) (o d : PileRef) (n : Int) (base : Card)
    (hd : (s.getPile d).is_empty = false)
    (hacc : (s.move o d n).2 = .accepted)
    (hbase : (s.getPile o).peek n = some base) : base.hidden = false := by
  obtain ⟨-, -, -, base', hb', hcase⟩ := Solitaire.move_accepted_elim s o d n hacc
  rw [hbase] at hb'
  have hbe : base = base' := by injection hb'
  rcases hcase with ⟨hde, -⟩ | ⟨-, top, -, hvalid⟩
  · rw [hde] at hd
    cases hd
  · have := (Solitaire.is_valid_move_iff base' top).mp hvalid
    rw [hbe]
    exact this.1

/-- Claim C5 counterexample: a face-down card of rank `max_rank` is
accepted as the base of a transfer onto an empty destination — the
empty-destination branch of `move` never consults the `hidden` flag. -/
theorem claim_c5_counterexample :
    (let sC : Solitaire := ⟨⟨[]⟩, ⟨[]⟩, ⟨⟨[]⟩, ⟨[]⟩, ⟨[]⟩, ⟨[]⟩⟩,
        [⟨[⟨13, .spades, true⟩]⟩, ⟨[]⟩], [], 13⟩;
      (sC.move (.tableau 0) (.tableau 1) 1).2 = .accepted ∧
        (sC.getPile (.tableau 0)).peek 1 = some ⟨13, .spades, true⟩) := by
  exact ⟨by decide, by decide⟩

/-- Witness for claim C5: the accepted 6♡→7♠ move has a face-up base. -/
theorem claim_c5_witness :
    (let sA : Solitaire := ⟨⟨[]⟩, ⟨[]⟩, ⟨⟨[]⟩, ⟨[]⟩, ⟨[]⟩, ⟨[]⟩⟩,
        [⟨[⟨6, .hearts, false⟩]⟩, ⟨[⟨7, .spades, false⟩]⟩], [], 13⟩;
      (sA.getPile (.tableau 1)).is_empty = false ∧
        (sA.move (.tableau 0) (.tableau 1) 1).2 = .accepted ∧
        (Card.mk 6 .hearts false).hidden = false) := by
  refine ⟨by decide, by decide, ?_⟩
  exact claim_c5_base_face_up
    ⟨⟨[]⟩, ⟨[]⟩, ⟨⟨[]⟩, ⟨[]⟩, ⟨[]⟩, ⟨[]⟩⟩,
      [⟨[⟨6, .hearts, false⟩]⟩, ⟨[⟨7, .spades, false⟩]⟩], [], 13⟩
    (.tableau 0) (.tableau 1) 1 _ (by decide) (by decide) (by decide)

/-! ## Claim C6 -/

/-- Claim C6 (amended: the post-transfer rank equation holds for
single-card transfers).  A transfer onto a non-empty destination with a
face-up base card and a source of sufficient size is accepted iff the base
card and the destination's top card have opposite colors and the base
card's rank is exactly one less than the destination top's; after an
accepted single-card transfer, the destination's new top is the base card
(so its rank is the prior top's rank minus one with opposite color).  For
multi-card transfers the new top is the source's old top card, whose rank
is unconstrained (see `claim_c6_counterexample`). -/
theorem claim_c6_nonempty_dest (s : Solitaire) (o d : PileRef) (n : Int) (base top : Card)
    (hvd : s.validRefB d = true)
    (hneq : (s.getPile o).items ≠ (s.getPile d).items)
    (h1 : 1 ≤ n) (h2 : n ≤ (((s.getPile o).size : Int)))
    (hbase : (s.getPile o).peek n = some base) (hbf : base.hidden = false)
    (htop : (s.getPile d).items.getLast? = some top) :
    ((s.move o d n).2 = .accepted ↔
      (¬(base.is_red = top.is_red) ∧ base.rank + 1 = top.rank)) ∧
    (n = 1 → (s.move o d n).2 = .accepted →
      ((s.move o d n).1.getPile d).items.getLast? = some base) := by
  have hde : (s.getPile d).is_empty = false := by
    rw [CardPile.is_empty_false_iff]
    intro hnil
    rw [hnil] at htop
    simp at htop
  have ht1 : (s.getPile d).peek 1 = some top := by
    rw [CardPile.peek_one]
    exact htop
  have h1' : ¬(((s.getPile o).size : Int) < n) := by omega
  have hred := Solitaire.move_reduce_nonempty s o d n base top h1' hneq hde hbase ht1
  constructor
  · constructor
    · intro hacc
      by_cases hv : Solitaire.is_valid_move base top = true
      · have hiff := (Solitaire.is_valid_move_iff base top).mp hv
        exact ⟨hiff.2.1, hiff.2.2⟩
      · rw [hred, if_neg hv] at hacc
        simp at hacc
    · rintro ⟨hcol, hrk⟩
      have hv : Solitaire.is_valid_move base top = true :=
        (Solitaire.is_valid_move_iff base top).mpr ⟨hbf, hcol, hrk⟩
      rw [hred, if_pos hv]
  · intro hn1 hacc
    subst hn1
    have hv : Solitaire.is_valid_move base top = true := by
      by_contra hv
      rw [hred, if_neg hv] at hacc
      simp at hacc
    have heq : (s.move o d 1).1 = s.commitMove o d 1 := by
      rw [hred, if_pos hv]
    rw [heq]
    have hne : o ≠ d := fun he => hneq (by rw [he])
    rw [Solitaire.commitMove_getPile_d s o d 1 hvd hne]
    have hb1 : (s.getPile o).items.getLast? = some base := by
      rw [← CardPile.peek_one]
      exact hbase
    rw [CardPile.cut_one _ _ hb1]
    show ((s.getPile d).items ++ [base]).getLast? = some base
    exact List.getLast?_concat _

/-- Claim C6 counterexample: an accepted two-card transfer (6♡-base run
holding a 9♠ on top, onto a 7♠) leaves the destination's new top at rank 9,
not `priorTop.rank − 1 = 6`; only the base card is validated. -/
theorem claim_c6_counterexample :
    (let sD : Solitaire := ⟨⟨[]⟩, ⟨[]⟩, ⟨⟨[]⟩, ⟨[]⟩, ⟨[]⟩, ⟨[]⟩⟩,
        [⟨[⟨6, .hearts, false⟩, ⟨9, .spades, false⟩]⟩, ⟨[⟨7, .spades, false⟩]⟩], [], 13⟩;
      (sD.getPile (.tableau 1)).items.getLast? = some ⟨7, .spades, false⟩ ∧
        (sD.move (.tableau 0) (.tableau 1) 2).2 = .accepted ∧
        ((sD.move (.tableau 0) (.tableau 1) 2).1.getPile (.tableau 1)).items.getLast?
          = some ⟨9, .spades, false⟩ ∧
        ¬((9 : Nat) = 7 - 1)) := by
  exact ⟨by decide, by decide, by decide, by decide⟩

/-- Witness for claim C6 at the concrete 6♡→7♠ single-card move. -/
theorem claim_c6_witness :
    (let sA : Solitaire := ⟨⟨[]⟩, ⟨[]⟩, ⟨⟨[]⟩, ⟨[]⟩, ⟨[]⟩, ⟨[]⟩⟩,
        [⟨[⟨6, .hearts, false⟩]⟩, ⟨[⟨7, .spades, false⟩]⟩], [], 13⟩;
      ((sA.move (.tableau 0) (.tableau 1) 1).2 = .accepted ↔
        (¬((Card.mk 6 .hearts false).is_red = (Card.mk 7 .spades false).is_red) ∧
          (Card.mk 6 .hearts false).rank + 1 = (Card.mk 7 .spades false).rank)) ∧
      ((sA.move (.tableau 0) (.tableau 1) 1).1.getPile (.tableau 1)).items.getLast?
        = some ⟨6, .hearts, false⟩) := by
  have h := claim_c6_nonempty_dest
    ⟨⟨[]⟩, ⟨[]⟩, ⟨⟨[]⟩, ⟨[]⟩, ⟨[]⟩, ⟨[]⟩⟩,
      [⟨[⟨6, .hearts, false⟩]⟩, ⟨[⟨7, .spades, false⟩]⟩], [], 13⟩
    (.tableau 0) (.tableau 1) 1 ⟨6, .hearts, false⟩ ⟨7, .spades, false⟩
    (by decide) (by decide) (by decide) (by decide) (by decide) (by decide) (by decide)
  exact ⟨h.1, h.2 rfl (by decide)⟩

/-! ## Claim C7 -/

/-- Claim C7: `move_to_foundation` on a non-empty pile is accepted iff the
top card's own-suit foundation is empty and that card's rank is 1, or the
foundation's top card's rank is one less than the moving card's rank; an
accepted call moves exactly that one card onto the foundation of its own
suit, and the origin keeps the rest of its cards (its newly exposed top
card revealed). -/
theorem claim_c7_foundation_rule (s : Solitaire) (p : PileRef) (top : Card)
    (hvp : s.validRefB p = true)
    (htop : (s.getPile p).items.getLast? = some top) :
    ((s.move_to_foundation p).2 = .accepted ↔
      ((((s.foundations.get top.suit)).items = [] ∧ top.rank = 1) ∨
        (∃ ftop, ((s.foundations.get top.suit)).items.getLast? = some ftop ∧
          ftop.rank + 1 = top.rank))) ∧
    ((s.move_to_foundation p).2 = .accepted →
      (((s.move_to_foundation p).1.getPile (.foundation top.suit))).items
          = ((s.foundations.get top.suit)).items ++ [top] ∧
        (s.move_to_foundation p).1.getPile p
          = ((⟨(s.getPile p).items.dropLast⟩ : CardPile)).setTopHidden false) := by
  have hred := Solitaire.mtf_reduce s p top htop
  have hacc_iff : (s.move_to_foundation p).2 = .accepted ↔
      ((((s.foundations.get top.suit)).items = [] ∧ top.rank = 1) ∨
        (∃ ftop, ((s.foundations.get top.suit)).items.getLast? = some ftop ∧
          ftop.rank + 1 = top.rank)) := by
    rw [hred]
    by_cases hfe : ((s.foundations.get top.suit)).is_empty = true
    · have hnil : ((s.foundations.get top.suit)).items = [] := (CardPile.is_empty_iff _).mp hfe
      rw [if_pos hfe]
      by_cases hr : top.rank = 1
      · have hb : (top.rank == 1) = true := by simp [hr]
        rw [hb]
        simp [hnil, hr]
      · have hb : (top.rank == 1) = false := by simp [hr]
        rw [hb]
        simp [hnil, hr]
    · have hfe' : ((s.foundations.get top.suit)).is_empty = false := by
        rwa [Bool.not_eq_true] at hfe
      have hnn : ((s.foundations.get top.suit)).items ≠ [] :=
        (CardPile.is_empty_false_iff _).mp hfe'
      rw [if_neg hfe]
      cases hft : ((s.foundations.get top.suit)).items.getLast? with
      | none => exact absurd (List.getLast?_eq_none_iff.mp hft) hnn
      | some ftop =>
        by_cases hrr : ftop.rank + 1 = top.rank
        · have hb : (ftop.rank + 1 == top.rank) = true := by simp [hrr]
          simp only [hb]
          constructor
          · intro _
            exact Or.inr ⟨ftop, rfl, hrr⟩
          · intro _
            rfl
        · have hb : (ftop.rank + 1 == top.rank) = false := by simp [hrr]
          simp only [hb]
          constructor
          · intro h
            simp at h
          · rintro (⟨hnil, -⟩ | ⟨ftop', hft', hrr'⟩)
            · exact absurd hnil hnn
            · have he : ftop = ftop' := by injection hft'
              rw [← he] at hrr'
              exact absurd hrr' hrr
  refine ⟨hacc_iff, fun hacc => ?_⟩
  have hcommit : (s.move_to_foundation p).1 = s.commitMove p (.foundation top.suit) 1 := by
    rcases Solitaire.mtf_spec s p with ⟨top', htop', hcond, he⟩ | ⟨-, hn⟩
    · rw [htop] at htop'
      have hte : top = top' := by injection htop'
      rw [he, ← hte]
    · exact absurd hacc hn
  have hne : p ≠ .foundation top.suit := by
    intro he2
    have hgp : s.getPile p = s.foundations.get top.suit := by
      rw [he2]
      rfl
    rcases hacc_iff.mp hacc with ⟨hnil, -⟩ | ⟨ftop, hft, hrr⟩
    · rw [hgp, hnil] at htop
      simp at htop
    · rw [hgp] at htop
      rw [htop] at hft
      have hte : top = ftop := by injection hft
      rw [hte] at hrr
      omega
  constructor
  · rw [hcommit, Solitaire.commitMove_getPile_d s p (.foundation top.suit) 1 (by rfl) hne]
    rw [CardPile.cut_one _ _ htop]
    rfl
  · rw [hcommit, Solitaire.commitMove_getPile_o s p (.foundation top.suit) 1 hvp hne]
    rw [CardPile.cut_one _ _ htop]

/-- Witness for claim C7: an ace of hearts on the waste is accepted onto
the empty hearts foundation and lands there as the single moved card; a 2♣
on a tableau pile with an empty clubs foundation is rejected. -/
theorem claim_c7_witness :
    (let sE : Solitaire := ⟨⟨[]⟩, ⟨[⟨1, .hearts, false⟩]⟩, ⟨⟨[]⟩, ⟨[]⟩, ⟨[]⟩, ⟨[]⟩⟩,
        [], [], 13⟩;
      ((sE.move_to_foundation .waste).2 = .accepted ↔
        (((sE.foundations.get Suit.hearts).items = [] ∧ (1 : Nat) = 1) ∨
          (∃ ftop, (sE.foundations.get Suit.hearts).items.getLast? = some ftop ∧
            ftop.rank + 1 = 1))) ∧
      ((sE.move_to_foundation .waste).2 = .accepted ∧
        ((sE.move_to_foundation .waste).1.getPile (.foundation Suit.hearts)).items
          = [⟨1, .hearts, false⟩])) := by
  have h := claim_c7_foundation_rule
    ⟨⟨[]⟩, ⟨[⟨1, .hearts, false⟩]⟩, ⟨⟨[]⟩, ⟨[]⟩, ⟨[]⟩, ⟨[]⟩⟩, [], [], 13⟩
    .waste ⟨1, .hearts, false⟩ (by decide) (by decide)
  refine ⟨h.1, by decide, ?_⟩
  have h2 := (h.2 (by decide)).1
  rw [h2]
  decide

/-! ## Claim C4 -/

/-- Claim C4: the draw command with a non-empty stock moves exactly the
stock's top card — which is face-up — onto the waste's top; with an empty
stock it relocates all waste cards to the stock in reversed order (so the
original draw order is restored) with no transfer-rule validation; in both
cases a `'d'` entry is pushed onto the history (by `process_input`, the
command's only dispatcher).  The face-up fact uses the invariant,
established at deal time, that every stock card is face-up. -/
theorem claim_c4_draw_behavior (s : Solitaire)
    (hface : ∀ c ∈ s.stock.items, c.hidden = false) :
    (∀ (rest : List Card) (c : Card), s.stock.items = rest ++ [c] →
      s.drawAction = ({ s with stock := ⟨rest⟩,
                               waste := s.waste.add_top c,
                               history := .draw :: s.history } : Solitaire) ∧
        c.hidden = false) ∧
    (s.stock.items = [] →
      s.drawAction = ({ s with stock := ⟨s.waste.items.reverse⟩,
                               waste := ⟨[]⟩,
                               history := .draw :: s.history } : Solitaire)) := by
  constructor
  · intro rest c hsc
    have hne : ¬(s.stock.is_empty = true) := by
      rw [CardPile.is_empty_iff, hsc]
      simp
    have hgl : s.stock.items.getLast? = some c := by
      rw [hsc]
      exact List.getLast?_concat _
    have hdl : s.stock.items.dropLast = rest := by
      rw [hsc]
      simp
    refine ⟨?_, hface c (by rw [hsc]; simp)⟩
    simp only [Solitaire.drawAction, Solitaire.draw]
    rw [if_neg hne, hgl, hdl]
  · intro hsc
    have he : s.stock.is_empty = true := (CardPile.is_empty_iff _).mpr hsc
    simp only [Solitaire.drawAction, Solitaire.draw]
    rw [if_pos he, CardPile.cut_size]
    simp only [CardPile.extend]
    rw [hsc]
    simp only [List.nil_append]

/-- Witness for claim C4 on concrete boards: a draw from a one-card stock,
and a recycle draw with an empty stock and a three-card waste which lands
in the stock reversed. -/
theorem claim_c4_witness :
    (let sF : Solitaire := ⟨⟨[⟨2, .clubs, false⟩]⟩, ⟨[⟨4, .clubs, false⟩]⟩,
        ⟨⟨[]⟩, ⟨[]⟩, ⟨[]⟩, ⟨[]⟩⟩, [], [], 13⟩;
      sF.drawAction = ({ sF with stock := ⟨[]⟩,
                                 waste := sF.waste.add_top ⟨2, .clubs, false⟩,
                                 history := .draw :: sF.history } : Solitaire) ∧
        (Card.mk 2 .clubs false).hidden = false) ∧
    (let sG : Solitaire := ⟨⟨[]⟩,
        ⟨[⟨4, .clubs, false⟩, ⟨3, .clubs, false⟩, ⟨2, .clubs, false⟩]⟩,
        ⟨⟨[]⟩, ⟨[]⟩, ⟨[]⟩, ⟨[]⟩⟩, [], [], 13⟩;
      sG.drawAction = ({ sG with stock := ⟨sG.waste.items.reverse⟩,
                                 waste := ⟨[]⟩,
                                 history := .draw :: sG.history } : Solitaire)) := by
  constructor
  · exact (claim_c4_draw_behavior
      ⟨⟨[⟨2, .clubs, false⟩]⟩, ⟨[⟨4, .clubs, false⟩]⟩,
        ⟨⟨[]⟩, ⟨[]⟩, ⟨[]⟩, ⟨[]⟩⟩, [], [], 13⟩ (by decide)).1 [] ⟨2, .clubs, false⟩ (by decide)
  · exact (claim_c4_draw_behavior
      ⟨⟨[]⟩, ⟨[⟨4, .clubs, false⟩, ⟨3, .clubs, false⟩, ⟨2, .clubs, false⟩]⟩,
        ⟨⟨[]⟩, ⟨[]⟩, ⟨[]⟩, ⟨[]⟩⟩, [], [], 13⟩ (by decide)).2 (by decide)

/-! ## Claim C8 -/

/-- Claim C8 evaluated at the failing input (code bug): a transfer request
with count 0 on an origin holding a face-up king, aimed at an empty
destination, is accepted: Python's `items[-0:]` slice makes `cut(0)`
remove and return the entire origin pile, so the whole pile is relocated
and a history entry with count 0 is pushed — the mandated
no-mutation-on-structural-misuse guarantee is violated. -/
theorem claim_c8_count_zero_mutates :
    (let s8 : Solitaire := ⟨⟨[]⟩, ⟨[]⟩, ⟨⟨[]⟩, ⟨[]⟩, ⟨[]⟩, ⟨[]⟩⟩,
        [⟨[⟨13, .spades, false⟩]⟩, ⟨[]⟩], [], 13⟩;
      (s8.move (.tableau 0) (.tableau 1) 0).2 = .accepted ∧
        ((s8.move (.tableau 0) (.tableau 1) 0).1.getPile (.tableau 0)).items = [] ∧
        ((s8.move (.tableau 0) (.tableau 1) 0).1.getPile (.tableau 1)).items
          = [⟨13, .spades, false⟩] ∧
        (s8.move (.tableau 0) (.tableau 1) 0).1.history
          = [.transfer (.tableau 0) (.tableau 1) 0 false]) := by
  exact ⟨by decide, by decide, by decide, by decide⟩

/-! ## Claim C9 -/

/-- Claim C9 (amended): the pile operations do not themselves reject an
undersized request.  When a pile holds fewer than `N` cards, `peek(N)`
produces no card (it raises `IndexError`), but `cut(N)` silently removes
and returns the pile's entire contents; the `size ≥ N` precondition is
enforced only by `Solitaire.move`, which rejects — removing nothing — when
the origin holds fewer than the requested number of cards. -/
theorem claim_c9_cut_peek_underflow :
    (∀ (p : CardPile) (n : Nat), p.size < n →
      p.peek (n : Int) = none ∧ (p.cut (n : Int)).1 = p.items ∧
        ((p.cut (n : Int)).2).items = []) ∧
    (∀ (s : Solitaire) (o d : PileRef) (n : Int), (((s.getPile o).size : Int)) < n →
      s.move o d n = (s, .rejected)) := by
  constructor
  · intro p n hlt
    have hlen : p.items.length < n := hlt
    have h0 : (0 : Int) < (n : Int) := by
      omega
    refine ⟨?_, ?_, ?_⟩
    · unfold CardPile.peek
      rw [if_pos h0, if_neg (by omega)]
    · rw [CardPile.cut_pos _ _ h0]
      show p.items.drop (p.items.length - ((n : Int)).toNat) = p.items
      have : p.items.length - ((n : Int)).toNat = 0 := by
        simp
        omega
      rw [this, List.drop_zero]
    · rw [CardPile.cut_pos _ _ h0]
      show p.items.take (p.items.length - ((n : Int)).toNat) = []
      have : p.items.length - ((n : Int)).toNat = 0 := by
        simp
        omega
      rw [this, List.take_zero]
  · intro s o d n h
    exact Solitaire.move_of_size_lt s o d n h

/-- Claim C9 counterexample: `cut(2)` on a one-card pile is not rejected —
it removes the card (and returns it), leaving the pile empty, contradicting
"no cards are removed". -/
theorem claim_c9_counterexample :
    (let p1 : CardPile := ⟨[⟨1, .clubs, false⟩]⟩;
      p1.size < 2 ∧ (p1.cut 2).2 ≠ p1 ∧ (p1.cut 2).1 = p1.items ∧
        ((p1.cut 2).2).items = []) := by
  exact ⟨by decide, by decide, by decide, by decide⟩

/-- Witness for claim C9 at a one-card pile and a two-card request. -/
theorem claim_c9_witness :
    ((CardPile.mk [⟨1, .clubs, false⟩]).peek 2 = none ∧
      ((CardPile.mk [⟨1, .clubs, false⟩]).cut 2).1 = [⟨1, .clubs, false⟩] ∧
      (((CardPile.mk [⟨1, .clubs, false⟩]).cut 2).2).items = []) ∧
    (let s9 : Solitaire := ⟨⟨[]⟩, ⟨[]⟩, ⟨⟨[]⟩, ⟨[]⟩, ⟨[]⟩, ⟨[]⟩⟩,
        [⟨[⟨1, .clubs, false⟩]⟩, ⟨[]⟩], [], 13⟩;
      s9.move (.tableau 0) (.tableau 1) 2 = (s9, .rejected)) := by
  constructor
  · exact claim_c9_cut_peek_underflow.1 ⟨[⟨1, .clubs, false⟩]⟩ 2 (by decide)
  · exact claim_c9_cut_peek_underflow.2 _ (.tableau 0) (.tableau 1) 2 (by decide)

/-! ## Claim C10 -/

/-- Claim C10: `is_complete()` returns true iff the stock is empty, the
waste is empty, and no card in any tableau pile is hidden — with no
condition at all on how many cards remain in the tableau piles or on the
foundations. -/
theorem claim_c10_is_complete_iff (s : Solitaire) :
    s.is_complete = true ↔
      (s.stock.items = [] ∧ s.waste.items = [] ∧
        ∀ pile ∈ s.piles, ∀ c ∈ pile.items, c.hidden = false) := by
  have hfold : ∀ (L : List CardPile) (acc : List Card),
      L.foldl (fun a pile => a ++ pile.items.filter (fun c => c.hidden)) acc
        = acc ++ (L.map (fun pile => pile.items.filter (fun c => c.hidden))).flatten := by
    intro L
    induction L with
    | nil =>
      intro acc
      simp
    | cons hd tl ih =>
      intro acc
      simp only [List.foldl_cons, List.map_cons, List.flatten_cons]
      rw [ih]
      simp [List.append_assoc]
  unfold Solitaire.is_complete
  cases hstock : s.stock.is_empty with
  | false =>
    rw [if_pos (by rfl)]
    constructor
    · intro h
      cases h
    · rintro ⟨hs, -, -⟩
      rw [(CardPile.is_empty_iff _).mpr hs] at hstock
      cases hstock
  | true =>
    rw [if_neg (by simp)]
    cases hwaste : s.waste.is_empty with
    | false =>
      rw [if_pos (by rfl)]
      constructor
      · intro h
        cases h
      · rintro ⟨-, hw, -⟩
        rw [(CardPile.is_empty_iff _).mpr hw] at hwaste
        cases hwaste
    | true =>
      rw [if_neg (by simp)]
      rw [hfold]
      simp only [List.nil_append]
      rw [List.isEmpty_iff]
      constructor
      · intro hfl
        refine ⟨(CardPile.is_empty_iff _).mp hstock, (CardPile.is_empty_iff _).mp hwaste, ?_⟩
        intro pile hp c hc
        have hmem : pile.items.filter (fun c => c.hidden) = [] :=
          (List.flatten_eq_nil_iff.mp hfl) _ (List.mem_map_of_mem _ hp)
        by_contra hcon
        have hcb : c.hidden = true := by
          cases hcv : c.hidden
          · exact absurd hcv hcon
          · rfl
        have hin : c ∈ pile.items.filter (fun c => c.hidden) := by
          rw [List.mem_filter]
          exact ⟨hc, hcb⟩
        rw [hmem] at hin
        cases hin
      · rintro ⟨-, -, hall⟩
        rw [List.flatten_eq_nil_iff]
        intro l hl
        obtain ⟨pile, hp, rfl⟩ := List.mem_map.mp hl
        rw [List.filter_eq_nil_iff]
        intro c hc
        rw [hall pile hp c hc]
        simp

/-! ## Conservation of the card multiset -/

theorem pileKeys_eq_deckKeys (p : CardPile) : pileKeys p = deckKeys p.items := rfl

theorem deckKeys_append (a b : List Card) : deckKeys (a ++ b) = deckKeys a + deckKeys b := by
  unfold deckKeys
  rw [List.map_append]
  exact (Multiset.coe_add _ _).symm

theorem deckKeys_reverse (l : List Card) : deckKeys l.reverse = deckKeys l := by
  unfold deckKeys
  rw [List.map_reverse]
  exact Multiset.coe_reverse _

theorem deckKeys_unhide (l : List Card) :
    deckKeys (l.map (fun c => { c with hidden := false })) = deckKeys l := by
  unfold deckKeys
  rw [List.map_map]
  rfl

theorem pileKeys_setTopHidden (p : CardPile) (b : Bool) :
    pileKeys (p.setTopHidden b) = pileKeys p := by
  unfold CardPile.setTopHidden
  cases hl : p.items.getLast? with
  | none => rfl
  | some c =>
    have hsplit : p.items.dropLast ++ [c] = p.items :=
      List.dropLast_append_getLast? c (by rw [hl]; rfl)
    show deckKeys (p.items.dropLast ++ [{ c with hidden := b }]) = deckKeys p.items
    rw [deckKeys_append]
    conv_rhs => rw [← hsplit]
    rw [deckKeys_append]
    rfl

theorem pileKeys_cut (p : CardPile) (n : Int) :
    pileKeys ((p.cut n).2) + deckKeys ((p.cut n).1) = pileKeys p := by
  rw [pileKeys_eq_deckKeys, pileKeys_eq_deckKeys, ← deckKeys_append,
    CardPile.cut_snd_append_fst]

theorem pileKeys_extend (p : CardPile) (cs : List Card) :
    pileKeys (p.extend cs) = pileKeys p + deckKeys cs := by
  rw [pileKeys_eq_deckKeys, pileKeys_eq_deckKeys]
  show deckKeys (p.items ++ cs) = _
  exact deckKeys_append _ _

theorem pileKeys_add_top (p : CardPile) (c : Card) :
    pileKeys (p.add_top c) = pileKeys p + deckKeys [c] := by
  rw [pileKeys_eq_deckKeys, pileKeys_eq_deckKeys]
  show deckKeys (p.items ++ [c]) = _
  exact deckKeys_append _ _

theorem mapsum_set : ∀ (l : List CardPile) (i : Nat) (p : CardPile), i < l.length →
    ((l.set i p).map pileKeys).sum + pileKeys (l.getD i ⟨[]⟩)
      = (l.map pileKeys).sum + pileKeys p
  | [], i, p, hi => absurd hi (by simp)
  | a :: tl, 0, p, _ => by
    simp only [List.set, List.getD_cons_zero, List.map_cons, List.sum_cons]
    abel
  | a :: tl, i + 1, p, hi => by
    simp only [List.set, List.getD_cons_succ, List.map_cons, List.sum_cons]
    have ih := mapsum_set tl i p (by simpa using hi)
    calc pileKeys a + ((tl.set i p).map pileKeys).sum + pileKeys (tl.getD i ⟨[]⟩)
        = pileKeys a + (((tl.set i p).map pileKeys).sum + pileKeys (tl.getD i ⟨[]⟩)) := by
          abel
      _ = pileKeys a + ((tl.map pileKeys).sum + pileKeys p) := by rw [ih]
      _ = pileKeys a + (tl.map pileKeys).sum + pileKeys p := by abel

namespace Solitaire

theorem allCards_withHistory (s : Solitaire) (h : List HistEntry) :
    (({ s with history := h } : Solitaire)).allCards = s.allCards := rfl

theorem allCards_setPile (s : Solitaire) (r : PileRef) (p : CardPile)
    (h : s.validRefB r = true) :
    (s.setPile r p).allCards + pileKeys (s.getPile r) = s.allCards + pileKeys p := by
  cases r with
  | stock =>
    show ({ s with stock := p } : Solitaire).allCards + pileKeys s.stock = _
    unfold allCards
    abel
  | waste =>
    show ({ s with waste := p } : Solitaire).allCards + pileKeys s.waste = _
    unfold allCards
    abel
  | foundation suit =>
    cases suit <;>
      (unfold allCards setPile getPile Foundations.set Foundations.get; abel)
  | tableau i =>
    have hi : i < s.piles.length := by
      simpa [validRefB] using h
    show ({ s with piles := s.piles.set i p } : Solitaire).allCards
        + pileKeys (s.piles.getD i ⟨[]⟩) = _
    unfold allCards
    have hms := mapsum_set s.piles i p hi
    calc pileKeys s.stock + pileKeys s.waste +
          (pileKeys s.foundations.clubs + pileKeys s.foundations.diamonds +
            pileKeys s.foundations.hearts + pileKeys s.foundations.spades) +
          ((s.piles.set i p).map pileKeys).sum + pileKeys (s.piles.getD i ⟨[]⟩)
        = pileKeys s.stock + pileKeys s.waste +
          (pileKeys s.foundations.clubs + pileKeys s.foundations.diamonds +
            pileKeys s.foundations.hearts + pileKeys s.foundations.spades) +
          (((s.piles.set i p).map pileKeys).sum + pileKeys (s.piles.getD i ⟨[]⟩)) := by
          abel
      _ = pileKeys s.stock + pileKeys s.waste +
          (pileKeys s.foundations.clubs + pileKeys s.foundations.diamonds +
            pileKeys s.foundations.hearts + pileKeys s.foundations.spades) +
          ((s.piles.map pileKeys).sum + pileKeys p) := by rw [hms]
      _ = pileKeys s.stock + pileKeys s.waste +
          (pileKeys s.foundations.clubs + pileKeys s.foundations.diamonds +
            pileKeys s.foundations.hearts + pileKeys s.foundations.spades) +
          (s.piles.map pileKeys).sum + pileKeys p := by abel

end Solitaire

theorem pileKeys_nil : pileKeys (⟨[]⟩ : CardPile) = 0 := rfl

namespace Solitaire

theorem allCards_commitMove (s : Solitaire) (o d : PileRef) (n : Int)
    (hvo : s.validRefB o = true) (hvd : s.validRefB d = true) (hne : o ≠ d) :
    (s.commitMove o d n).allCards = s.allCards := by
  unfold commitMove
  set c := (s.getPile o).cut n with hc
  have e1 := allCards_setPile s o c.2 hvo
  have hvd1 : (s.setPile o c.2).validRefB d = true := by simpa using hvd
  have hget : (s.setPile o c.2).getPile d = s.getPile d := getPile_setPile_ne s o d c.2 hne
  have e2 := allCards_setPile (s.setPile o c.2) d ((s.getPile d).extend c.1) hvd1
  rw [hget, pileKeys_extend] at e2
  have key : ((s.setPile o c.2).setPile d ((s.getPile d).extend c.1)).allCards
      + (pileKeys (s.getPile d) + pileKeys (s.getPile o))
      = s.allCards + (pileKeys (s.getPile d) + pileKeys (s.getPile o)) := by
    calc ((s.setPile o c.2).setPile d ((s.getPile d).extend c.1)).allCards
          + (pileKeys (s.getPile d) + pileKeys (s.getPile o))
        = (((s.setPile o c.2).setPile d ((s.getPile d).extend c.1)).allCards
            + pileKeys (s.getPile d)) + pileKeys (s.getPile o) := by abel
      _ = ((s.setPile o c.2).allCards + (pileKeys (s.getPile d) + deckKeys c.1))
            + pileKeys (s.getPile o) := by rw [e2]
      _ = ((s.setPile o c.2).allCards + pileKeys (s.getPile o))
            + (pileKeys (s.getPile d) + deckKeys c.1) := by abel
      _ = (s.allCards + pileKeys c.2) + (pileKeys (s.getPile d) + deckKeys c.1) := by rw [e1]
      _ = s.allCards + ((pileKeys c.2 + deckKeys c.1) + pileKeys (s.getPile d)) := by abel
      _ = s.allCards + (pileKeys (s.getPile o) + pileKeys (s.getPile d)) := by
            rw [hc, pileKeys_cut]
      _ = s.allCards + (pileKeys (s.getPile d) + pileKeys (s.getPile o)) := by abel
  have hA2 : ((s.setPile o c.2).setPile d ((s.getPile d).extend c.1)).allCards = s.allCards :=
    add_right_cancel key
  by_cases he : (c.2.is_empty) = true
  · rw [if_pos he]
    show ((s.setPile o c.2).setPile d ((s.getPile d).extend c.1)).allCards = s.allCards
    exact hA2
  · rw [if_neg he]
    show (((s.setPile o c.2).setPile d ((s.getPile d).extend c.1)).setPile o
        (c.2.setTopHidden false)).allCards = s.allCards
    set s1 := (s.setPile o c.2).setPile d ((s.getPile d).extend c.1) with hs1
    have hvo1 : s1.validRefB o = true := by
      rw [hs1]
      simpa using hvo
    have e3 := allCards_setPile s1 o (c.2.setTopHidden false) hvo1
    rw [pileKeys_setTopHidden] at e3
    have hgo : s1.getPile o = c.2 := by
      rw [hs1, getPile_setPile_ne _ d o _ (Ne.symm hne)]
      exact getPile_setPile_same s o _ hvo
    rw [hgo] at e3
    have := add_right_cancel e3
    rw [this, hA2]

theorem allCards_move (s : Solitaire) (o d : PileRef) (n : Int)
    (hvo : s.validRefB o = true) (hvd : s.validRefB d = true) :
    ((s.move o d n).1).allCards = s.allCards := by
  rcases move_spec s o d n with ⟨-, h2, -, he⟩ | ⟨he, -⟩
  · rw [he]
    show (s.commitMove o d n).allCards = s.allCards
    have hne : o ≠ d := fun hx => h2 (by rw [hx])
    exact allCards_commitMove s o d n hvo hvd hne
  · rw [he]

/-- A pile whose top card satisfies the foundation-acceptance rule against
its own suit's foundation cannot itself be that foundation. -/
theorem mtf_ne_foundation (s : Solitaire) (p : PileRef) (top : Card)
    (htop : (s.getPile p).items.getLast? = some top)
    (hcond : (((s.foundations.get top.suit)).is_empty = true ∧ top.rank = 1) ∨
      (∃ ftop, ((s.foundations.get top.suit)).items.getLast? = some ftop ∧
        ftop.rank + 1 = top.rank)) :
    p ≠ .foundation top.suit := by
  intro he2
  have hgp : s.getPile p = s.foundations.get top.suit := by
    rw [he2]
    rfl
  rcases hcond with ⟨hfe, -⟩ | ⟨ftop, hft, hrr⟩
  · have hnil : ((s.foundations.get top.suit)).items = [] := (CardPile.is_empty_iff _).mp hfe
    rw [hgp, hnil] at htop
    simp at htop
  · rw [hgp] at htop
    rw [htop] at hft
    have hte : top = ftop := by injection hft
    rw [hte] at hrr
    omega

theorem allCards_mtf (s : Solitaire) (p : PileRef) (hvp : s.validRefB p = true) :
    ((s.move_to_foundation p).1).allCards = s.allCards := by
  rcases mtf_spec s p with ⟨top, htop, hcond, he⟩ | ⟨he, -⟩
  · rw [he]
    show (s.commitMove p (.foundation top.suit) 1).allCards = s.allCards
    exact allCards_commitMove s p (.foundation top.suit) 1 hvp (by rfl)
      (mtf_ne_foundation s p top htop hcond)
  · rw [he]

theorem allCards_draw (s : Solitaire) : (s.draw).allCards = s.allCards := by
  unfold draw
  by_cases hst : s.stock.is_empty = true
  · rw [if_pos hst, CardPile.cut_size]
    show ({ s with waste := ⟨[]⟩,
                   stock := s.stock.extend s.waste.items.reverse } : Solitaire).allCards
      = s.allCards
    unfold allCards
    rw [pileKeys_extend, deckKeys_reverse, pileKeys_nil, ← pileKeys_eq_deckKeys]
    abel
  · rw [if_neg hst]
    cases hgl : s.stock.items.getLast? with
    | none => rfl
    | some c =>
      show ({ s with stock := ⟨s.stock.items.dropLast⟩,
                     waste := s.waste.add_top c } : Solitaire).allCards = s.allCards
      unfold allCards
      rw [pileKeys_add_top]
      have hkey : pileKeys (⟨s.stock.items.dropLast⟩ : CardPile) + deckKeys [c]
          = pileKeys s.stock := by
        rw [pileKeys_eq_deckKeys, pileKeys_eq_deckKeys]
        show deckKeys s.stock.items.dropLast + deckKeys [c] = deckKeys s.stock.items
        rw [← deckKeys_append, List.dropLast_append_getLast? c (by rw [hgl]; rfl)]
      calc pileKeys (⟨s.stock.items.dropLast⟩ : CardPile)
            + (pileKeys s.waste + deckKeys [c]) +
            (pileKeys s.foundations.clubs + pileKeys s.foundations.diamonds +
              pileKeys s.foundations.hearts + pileKeys s.foundations.spades) +
            (s.piles.map pileKeys).sum
          = (pileKeys (⟨s.stock.items.dropLast⟩ : CardPile) + deckKeys [c])
            + pileKeys s.waste +
            (pileKeys s.foundations.clubs + pileKeys s.foundations.diamonds +
              pileKeys s.foundations.hearts + pileKeys s.foundations.spades) +
            (s.piles.map pileKeys).sum := by abel
        _ = pileKeys s.stock + pileKeys s.waste +
            (pileKeys s.foundations.clubs + pileKeys s.foundations.diamonds +
              pileKeys s.foundations.hearts + pileKeys s.foundations.spades) +
            (s.piles.map pileKeys).sum := by rw [hkey]

theorem allCards_drawAction (s : Solitaire) : (s.drawAction).allCards = s.allCards := by
  unfold drawAction
  rw [allCards_withHistory]
  exact allCards_draw s

end Solitaire

namespace Solitaire

/-- Conservation through the cut-back phase of the transfer undo: cutting
`n` cards off the destination and appending them to the origin (read after
the destination update, so the aliased case is also covered). -/
theorem allCards_cutback (t : Solitaire) (o d : PileRef) (n : Int)
    (hvo : t.validRefB o = true) (hvd : t.validRefB d = true) :
    (((t.setPile d ((t.getPile d).cut n).2)).setPile o
      ((((t.setPile d ((t.getPile d).cut n).2)).getPile o).extend
        ((t.getPile d).cut n).1)).allCards = t.allCards := by
  set c := (t.getPile d).cut n with hc
  set t2 := t.setPile d c.2 with ht2
  have e1 := allCards_setPile t d c.2 hvd
  have hvo2 : t2.validRefB o = true := by
    rw [ht2]
    simpa using hvo
  have e2 := allCards_setPile t2 o ((t2.getPile o).extend c.1) hvo2
  rw [pileKeys_extend] at e2
  have e2' : (t2.setPile o ((t2.getPile o).extend c.1)).allCards
      = t2.allCards + deckKeys c.1 := by
    have key : (t2.setPile o ((t2.getPile o).extend c.1)).allCards + pileKeys (t2.getPile o)
        = (t2.allCards + deckKeys c.1) + pileKeys (t2.getPile o) := by
      calc (t2.setPile o ((t2.getPile o).extend c.1)).allCards + pileKeys (t2.getPile o)
          = t2.allCards + (pileKeys (t2.getPile o) + deckKeys c.1) := e2
        _ = (t2.allCards + deckKeys c.1) + pileKeys (t2.getPile o) := by abel
    exact add_right_cancel key
  rw [e2']
  have key2 : t2.allCards + deckKeys c.1 + pileKeys c.2 = t.allCards + pileKeys c.2 := by
    calc t2.allCards + deckKeys c.1 + pileKeys c.2
        = t2.allCards + (pileKeys c.2 + deckKeys c.1) := by abel
      _ = t2.allCards + pileKeys (t.getPile d) := by rw [hc, pileKeys_cut]
      _ = t.allCards + pileKeys c.2 := e1
  exact add_right_cancel key2

theorem allCards_undoDrawStep (t : Solitaire) :
    ((t.undoDrawStep).1).allCards = t.allCards := by
  unfold undoDrawStep
  by_cases hw : t.waste.is_empty = true
  · rw [if_pos hw, CardPile.cut_size]
    show ({ t with stock := ⟨[]⟩,
                   waste := t.waste.extend t.stock.items.reverse } : Solitaire).allCards
      = t.allCards
    unfold allCards
    rw [pileKeys_extend, deckKeys_reverse, pileKeys_nil, ← pileKeys_eq_deckKeys]
    abel
  · rw [if_neg hw]
    cases hgl : t.waste.items.getLast? with
    | none => rfl
    | some c =>
      show ({ t with waste := ⟨t.waste.items.dropLast⟩,
                     stock := t.stock.add_top c } : Solitaire).allCards = t.allCards
      unfold allCards
      rw [pileKeys_add_top]
      have hkey : pileKeys (⟨t.waste.items.dropLast⟩ : CardPile) + deckKeys [c]
          = pileKeys t.waste := by
        rw [pileKeys_eq_deckKeys, pileKeys_eq_deckKeys]
        show deckKeys t.waste.items.dropLast + deckKeys [c] = deckKeys t.waste.items
        rw [← deckKeys_append, List.dropLast_append_getLast? c (by rw [hgl]; rfl)]
      calc (pileKeys t.stock + deckKeys [c]) + pileKeys (⟨t.waste.items.dropLast⟩ : CardPile) +
            (pileKeys t.foundations.clubs + pileKeys t.foundations.diamonds +
              pileKeys t.foundations.hearts + pileKeys t.foundations.spades) +
            (t.piles.map pileKeys).sum
          = pileKeys t.stock + (pileKeys (⟨t.waste.items.dropLast⟩ : CardPile) + deckKeys [c]) +
            (pileKeys t.foundations.clubs + pileKeys t.foundations.diamonds +
              pileKeys t.foundations.hearts + pileKeys t.foundations.spades) +
            (t.piles.map pileKeys).sum := by abel
        _ = pileKeys t.stock + pileKeys t.waste +
            (pileKeys t.foundations.clubs + pileKeys t.foundations.diamonds +
              pileKeys t.foundations.hearts + pileKeys t.foundations.spades) +
            (t.piles.map pileKeys).sum := by rw [hkey]

theorem allCards_undoTransferStep (t : Solitaire) (o d : PileRef) (n : Int) (hb : Bool)
    (hvo : t.validRefB o = true) (hvd : t.validRefB d = true) :
    ((t.undoTransferStep o d n hb).1).allCards = t.allCards := by
  cases hb with
  | false =>
    show (((t.setPile d ((t.getPile d).cut n).2)).setPile o
      ((((t.setPile d ((t.getPile d).cut n).2)).getPile o).extend
        ((t.getPile d).cut n).1)).allCards = t.allCards
    exact allCards_cutback t o d n hvo hvd
  | true =>
    cases hgl : (t.getPile o).items.getLast? with
    | none =>
      have hred : t.undoTransferStep o d n true = (t, false) := by
        unfold undoTransferStep
        simp only [hgl]
        simp
      rw [hred]
    | some c =>
      rw [undoTransferStep_hidden_true t o d n c hgl]
      set t1 := t.setPile o ((t.getPile o).setTopHidden true) with ht1
      have hvo1 : t1.validRefB o = true := by
        rw [ht1]
        simpa using hvo
      have hvd1 : t1.validRefB d = true := by
        rw [ht1]
        simpa using hvd
      have h1 : t1.allCards = t.allCards := by
        have e := allCards_setPile t o ((t.getPile o).setTopHidden true) hvo
        rw [pileKeys_setTopHidden] at e
        exact add_right_cancel e
      show (((t1.setPile d ((t1.getPile d).cut n).2)).setPile o
        ((((t1.setPile d ((t1.getPile d).cut n).2)).getPile o).extend
          ((t1.getPile d).cut n).1)).allCards = t.allCards
      rw [allCards_cutback t1 o d n hvo1 hvd1, h1]

theorem allCards_undo (s : Solitaire)
    (hgood : ∀ (o d : PileRef) (n : Int) (hb : Bool),
      s.history.head? = some (.transfer o d n hb) →
        s.validRefB o = true ∧ s.validRefB d = true) :
    ((s.undo).1).allCards = s.allCards := by
  unfold undo
  cases hh : s.history with
  | nil => rfl
  | cons e rest =>
    cases e with
    | draw =>
      show ((({ s with history := rest } : Solitaire)).undoDrawStep).1.allCards = s.allCards
      rw [allCards_undoDrawStep]
      exact allCards_withHistory s rest
    | transfer o d n hb =>
      obtain ⟨hvo, hvd⟩ := hgood o d n hb (by rw [hh]; rfl)
      show ((({ s with history := rest } : Solitaire)).undoTransferStep o d n hb).1.allCards
        = s.allCards
      rw [allCards_undoTransferStep _ o d n hb (by simpa using hvo) (by simpa using hvd)]
      exact allCards_withHistory s rest

end Solitaire

namespace Solitaire

theorem piles_length_commitMove (s : Solitaire) (o d : PileRef) (n : Int) :
    (s.commitMove o d n).piles.length = s.piles.length := by
  unfold commitMove
  by_cases he : ((((s.getPile o).cut n).2)).is_empty = true
  · rw [if_pos he]
    show (((s.setPile o (((s.getPile o).cut n).2)).setPile d
      ((s.getPile d).extend (((s.getPile o).cut n).1)))).piles.length = s.piles.length
    simp
  · rw [if_neg he]
    show ((((s.setPile o (((s.getPile o).cut n).2)).setPile d
      ((s.getPile d).extend (((s.getPile o).cut n).1))).setPile o
        ((((s.getPile o).cut n).2).setTopHidden false))).piles.length = s.piles.length
    simp

theorem piles_length_move (s : Solitaire) (o d : PileRef) (n : Int) :
    ((s.move o d n).1).piles.length = s.piles.length := by
  rcases move_spec s o d n with ⟨-, -, -, he⟩ | ⟨he, -⟩
  · rw [he]
    exact piles_length_commitMove s o d n
  · rw [he]

theorem piles_length_mtf (s : Solitaire) (p : PileRef) :
    ((s.move_to_foundation p).1).piles.length = s.piles.length := by
  rcases mtf_spec s p with ⟨top, -, -, he⟩ | ⟨he, -⟩
  · rw [he]
    exact piles_length_commitMove s p (.foundation top.suit) 1
  · rw [he]

theorem piles_draw (s : Solitaire) : (s.draw).piles = s.piles := by
  unfold draw
  by_cases hst : s.stock.is_empty = true
  · rw [if_pos hst]
  · rw [if_neg hst]
    cases hgl : s.stock.items.getLast? <;> rfl

theorem piles_drawAction (s : Solitaire) : (s.drawAction).piles = s.piles := by
  unfold drawAction
  show (s.draw).piles = s.piles
  exact piles_draw s

theorem history_draw (s : Solitaire) : (s.draw).history = s.history := by
  unfold draw
  by_cases hst : s.stock.is_empty = true
  · rw [if_pos hst]
  · rw [if_neg hst]
    cases hgl : s.stock.items.getLast? <;> rfl

theorem history_drawAction (s : Solitaire) : (s.drawAction).history = .draw :: s.history := by
  unfold drawAction
  show .draw :: (s.draw).history = _
  rw [history_draw]

theorem piles_length_undoDrawStep (t : Solitaire) :
    ((t.undoDrawStep).1).piles.length = t.piles.length := by
  unfold undoDrawStep
  by_cases hw : t.waste.is_empty = true
  · rw [if_pos hw]
  · rw [if_neg hw]
    cases hgl : t.waste.items.getLast? <;> rfl

theorem history_undoDrawStep (t : Solitaire) :
    ((t.undoDrawStep).1).history = t.history := by
  unfold undoDrawStep
  by_cases hw : t.waste.is_empty = true
  · rw [if_pos hw]
  · rw [if_neg hw]
    cases hgl : t.waste.items.getLast? <;> rfl

theorem piles_length_undoTransferStep (t : Solitaire) (o d : PileRef) (n : Int) (hb : Bool) :
    ((t.undoTransferStep o d n hb).1).piles.length = t.piles.length := by
  cases hb with
  | false =>
    show ((((t.setPile d ((t.getPile d).cut n).2)).setPile o
      ((((t.setPile d ((t.getPile d).cut n).2)).getPile o).extend
        ((t.getPile d).cut n).1))).piles.length = t.piles.length
    simp
  | true =>
    cases hgl : (t.getPile o).items.getLast? with
    | none =>
      have hred : t.undoTransferStep o d n true = (t, false) := by
        unfold undoTransferStep
        simp only [hgl]
        simp
      rw [hred]
    | some c =>
      rw [undoTransferStep_hidden_true t o d n c hgl]
      set t1 := t.setPile o ((t.getPile o).setTopHidden true) with ht1
      show ((((t1.setPile d ((t1.getPile d).cut n).2)).setPile o
        ((((t1.setPile d ((t1.getPile d).cut n).2)).getPile o).extend
          ((t1.getPile d).cut n).1))).piles.length = t.piles.length
      rw [piles_length_setPile, piles_length_setPile, ht1, piles_length_setPile]

theorem history_undoTransferStep (t : Solitaire) (o d : PileRef) (n : Int) (hb : Bool) :
    ((t.undoTransferStep o d n hb).1).history = t.history := by
  cases hb with
  | false =>
    show ((((t.setPile d ((t.getPile d).cut n).2)).setPile o
      ((((t.setPile d ((t.getPile d).cut n).2)).getPile o).extend
        ((t.getPile d).cut n).1))).history = t.history
    simp
  | true =>
    cases hgl : (t.getPile o).items.getLast? with
    | none =>
      have hred : t.undoTransferStep o d n true = (t, false) := by
        unfold undoTransferStep
        simp only [hgl]
        simp
      rw [hred]
    | some c =>
      rw [undoTransferStep_hidden_true t o d n c hgl]
      set t1 := t.setPile o ((t.getPile o).setTopHidden true) with ht1
      show ((((t1.setPile d ((t1.getPile d).cut n).2)).setPile o
        ((((t1.setPile d ((t1.getPile d).cut n).2)).getPile o).extend
          ((t1.getPile d).cut n).1))).history = t.history
      rw [history_setPile, history_setPile, ht1, history_setPile]

theorem piles_length_undo (s : Solitaire) :
    (((s.undo).1)).piles.length = s.piles.length := by
  unfold undo
  cases hh : s.history with
  | nil => rfl
  | cons e rest =>
    cases e with
    | draw =>
      show ((({ s with history := rest } : Solitaire)).undoDrawStep).1.piles.length
        = s.piles.length
      rw [piles_length_undoDrawStep]
    | transfer o d n hb =>
      show ((({ s with history := rest } : Solitaire)).undoTransferStep o d n hb).1.piles.length
        = s.piles.length
      rw [piles_length_undoTransferStep]

theorem history_undo (s : Solitaire) : (((s.undo).1)).history = s.history.tail := by
  unfold undo
  cases hh : s.history with
  | nil =>
    show s.history = ([] : List HistEntry).tail
    rw [hh]
    rfl
  | cons e rest =>
    cases e with
    | draw =>
      show ((({ s with history := rest } : Solitaire)).undoDrawStep).1.history = rest
      rw [history_undoDrawStep]
    | transfer o d n hb =>
      show ((({ s with history := rest } : Solitaire)).undoTransferStep o d n hb).1.history
        = rest
      rw [history_undoTransferStep]

end Solitaire

/-! ## History well-formedness and the per-operation preservation lemma -/

namespace Solitaire

/-- Every transfer entry on the history stack names piles that exist on the
board.  (In the source this is automatic: the history holds the pile
objects themselves.) -/
def goodHistory (s : Solitaire) : Prop :=
  ∀ e ∈ s.history, ∀ (o d : PileRef) (n : Int) (hb : Bool),
    e = .transfer o d n hb → s.validRefB o = true ∧ s.validRefB d = true

theorem validRefB_eq_of_length (s s' : Solitaire)
    (h : s'.piles.length = s.piles.length) (r : PileRef) :
    s'.validRefB r = s.validRefB r := by
  cases r <;> simp [validRefB, h]

theorem applyOp_preserves (s : Solitaire) (op : GameOp) (hg : s.goodHistory) :
    (s.applyOp op).allCards = s.allCards ∧
      (s.applyOp op).piles.length = s.piles.length ∧ (s.applyOp op).goodHistory := by
  cases op with
  | draw =>
    have hlen : (s.applyOp GameOp.draw).piles.length = s.piles.length := by
      show (s.drawAction).piles.length = _
      rw [piles_drawAction]
    refine ⟨allCards_drawAction s, hlen, ?_⟩
    intro e he o d n hb heq
    have hh : (s.applyOp GameOp.draw).history = .draw :: s.history := history_drawAction s
    rw [hh] at he
    rcases List.mem_cons.mp he with rfl | hmem
    · cases heq
    · obtain ⟨h1, h2⟩ := hg e hmem o d n hb heq
      rw [validRefB_eq_of_length s _ hlen o, validRefB_eq_of_length s _ hlen d]
      exact ⟨h1, h2⟩
  | undo =>
    have hgood : ∀ (o d : PileRef) (n : Int) (hb : Bool),
        s.history.head? = some (.transfer o d n hb) →
          s.validRefB o = true ∧ s.validRefB d = true := by
      intro o d n hb hh
      cases hhist : s.history with
      | nil =>
        rw [hhist] at hh
        cases hh
      | cons e rest =>
        rw [hhist] at hh
        have he : e = .transfer o d n hb := by
          simpa using hh
        exact hg e (by rw [hhist]; exact List.mem_cons_self _ _) o d n hb he
    have hlen : (s.applyOp GameOp.undo).piles.length = s.piles.length := piles_length_undo s
    refine ⟨allCards_undo s hgood, hlen, ?_⟩
    intro e he o d n hb heq
    have hh : (s.applyOp GameOp.undo).history = s.history.tail := history_undo s
    rw [hh] at he
    obtain ⟨h1, h2⟩ := hg e (List.mem_of_mem_tail he) o d n hb heq
    rw [validRefB_eq_of_length s _ hlen o, validRefB_eq_of_length s _ hlen d]
    exact ⟨h1, h2⟩
  | move o d n =>
    by_cases hv : (s.validRefB o && s.validRefB d) = true
    · obtain ⟨hvo, hvd⟩ : s.validRefB o = true ∧ s.validRefB d = true := by
        simpa using hv
      have happ : s.applyOp (GameOp.move o d n) = (s.move o d n).1 := by
        show (if (s.validRefB o && s.validRefB d) = true then (s.move o d n).1 else s)
          = (s.move o d n).1
        rw [if_pos hv]
      rw [happ]
      have hlen := piles_length_move s o d n
      refine ⟨allCards_move s o d n hvo hvd, hlen, ?_⟩
      rcases move_spec s o d n with ⟨-, -, -, he⟩ | ⟨he, -⟩
      · have hh : ((s.move o d n).1).history
            = .transfer o d n ((((s.getPile o).cut n).2).topHiddenFlag) :: s.history := by
          rw [he]
          exact commitMove_history s o d n
        intro e he2 o' d' n' hb' heq
        rw [hh] at he2
        rcases List.mem_cons.mp he2 with rfl | hmem
        · injection heq with e1 e2 e3 e4
          subst e1
          subst e2
          refine ⟨?_, ?_⟩
          · rw [validRefB_eq_of_length s _ hlen]
            exact hvo
          · rw [validRefB_eq_of_length s _ hlen]
            exact hvd
        · obtain ⟨h1, h2⟩ := hg e hmem o' d' n' hb' heq
          rw [validRefB_eq_of_length s _ hlen o', validRefB_eq_of_length s _ hlen d']
          exact ⟨h1, h2⟩
      · rw [he]
        exact hg
    · have happ : s.applyOp (GameOp.move o d n) = s := by
        show (if (s.validRefB o && s.validRefB d) = true then (s.move o d n).1 else s) = s
        rw [if_neg hv]
      rw [happ]
      exact ⟨rfl, rfl, hg⟩
  | toFoundation p =>
    by_cases hv : s.validRefB p = true
    · have happ : s.applyOp (GameOp.toFoundation p) = (s.move_to_foundation p).1 := by
        show (if s.validRefB p = true then (s.move_to_foundation p).1 else s)
          = (s.move_to_foundation p).1
        rw [if_pos hv]
      rw [happ]
      have hlen := piles_length_mtf s p
      refine ⟨allCards_mtf s p hv, hlen, ?_⟩
      rcases mtf_spec s p with ⟨top, htop, hcond, he⟩ | ⟨he, -⟩
      · have hh : ((s.move_to_foundation p).1).history
            = .transfer p (.foundation top.suit) 1
              ((((s.getPile p).cut 1).2).topHiddenFlag) :: s.history := by
          rw [he]
          exact commitMove_history s p (.foundation top.suit) 1
        intro e he2 o' d' n' hb' heq
        rw [hh] at he2
        rcases List.mem_cons.mp he2 with rfl | hmem
        · injection heq with e1 e2 e3 e4
          subst e1
          subst e2
          refine ⟨?_, ?_⟩
          · rw [validRefB_eq_of_length s _ hlen]
            exact hv
          · rw [validRefB_eq_of_length s _ hlen]
            rfl
        · obtain ⟨h1, h2⟩ := hg e hmem o' d' n' hb' heq
          rw [validRefB_eq_of_length s _ hlen o', validRefB_eq_of_length s _ hlen d']
          exact ⟨h1, h2⟩
      · rw [he]
        exact hg
    · have happ : s.applyOp (GameOp.toFoundation p) = s := by
        show (if s.validRefB p = true then (s.move_to_foundation p).1 else s) = s
        rw [if_neg hv]
      rw [happ]
      exact ⟨rfl, rfl, hg⟩

end Solitaire

/-! ## Conservation through the deal, and claim C2 -/

theorem deckKeys_perm {l l' : List Card} (h : l.Perm l') : deckKeys l = deckKeys l' := by
  unfold deckKeys
  exact Multiset.coe_eq_coe.mpr (h.map _)

theorem dealOne_keys (deck : List Card) (k : Nat) :
    pileKeys ((dealOne deck k).1) + deckKeys ((dealOne deck k).2) = deckKeys deck := by
  unfold dealOne
  rw [pileKeys_setTopHidden]
  show deckKeys ((deck.drop (deck.length - k)).reverse)
      + deckKeys (deck.take (deck.length - k)) = deckKeys deck
  rw [deckKeys_reverse, add_comm, ← deckKeys_append, List.take_append_drop]

theorem dealPiles_keys : ∀ (n i : Nat) (deck : List Card),
    ((((dealPiles deck i n).1)).map pileKeys).sum + deckKeys ((dealPiles deck i n).2)
      = deckKeys deck
  | 0, i, deck => by
    show (([] : List CardPile).map pileKeys).sum + deckKeys deck = deckKeys deck
    simp
  | n + 1, i, deck => by
    have ih := dealPiles_keys n (i + 1) ((dealOne deck (i + 1)).2)
    have hone := dealOne_keys deck (i + 1)
    show ((((dealOne deck (i + 1)).1 :: (dealPiles ((dealOne deck (i + 1)).2) (i + 1) n).1)).map
        pileKeys).sum
      + deckKeys ((dealPiles ((dealOne deck (i + 1)).2) (i + 1) n).2) = deckKeys deck
    rw [List.map_cons, List.sum_cons]
    calc pileKeys ((dealOne deck (i + 1)).1)
          + (((dealPiles ((dealOne deck (i + 1)).2) (i + 1) n).1).map pileKeys).sum
          + deckKeys ((dealPiles ((dealOne deck (i + 1)).2) (i + 1) n).2)
        = pileKeys ((dealOne deck (i + 1)).1)
          + ((((dealPiles ((dealOne deck (i + 1)).2) (i + 1) n).1).map pileKeys).sum
            + deckKeys ((dealPiles ((dealOne deck (i + 1)).2) (i + 1) n).2)) := by abel
      _ = pileKeys ((dealOne deck (i + 1)).1) + deckKeys ((dealOne deck (i + 1)).2) := by
          rw [ih]
      _ = deckKeys deck := hone

theorem allCards_init (m : Nat) (deck : List Card) :
    (Solitaire.init m deck).allCards = deckKeys deck := by
  show pileKeys ⟨((dealPiles deck 0 (Nat.sqrt (4 * m))).2).map
        (fun c => { c with hidden := false })⟩
      + pileKeys ⟨[]⟩
      + (pileKeys ⟨[]⟩ + pileKeys ⟨[]⟩ + pileKeys ⟨[]⟩ + pileKeys ⟨[]⟩)
      + (((dealPiles deck 0 (Nat.sqrt (4 * m))).1).map pileKeys).sum = deckKeys deck
  rw [pileKeys_nil]
  have hstock : pileKeys ⟨((dealPiles deck 0 (Nat.sqrt (4 * m))).2).map
      (fun c => { c with hidden := false })⟩
      = deckKeys ((dealPiles deck 0 (Nat.sqrt (4 * m))).2) := by
    rw [pileKeys_eq_deckKeys]
    exact deckKeys_unhide _
  rw [hstock]
  calc deckKeys ((dealPiles deck 0 (Nat.sqrt (4 * m))).2) + 0 + (0 + 0 + 0 + 0)
        + (((dealPiles deck 0 (Nat.sqrt (4 * m))).1).map pileKeys).sum
      = (((dealPiles deck 0 (Nat.sqrt (4 * m))).1).map pileKeys).sum
        + deckKeys ((dealPiles deck 0 (Nat.sqrt (4 * m))).2) := by abel
    _ = deckKeys deck := dealPiles_keys _ _ _

theorem goodHistory_init (m : Nat) (deck : List Card) :
    (Solitaire.init m deck).goodHistory := by
  intro e he o d n hb heq
  exact absurd he (List.not_mem_nil e)

/-! ## Claim C2 -/

/-- Claim C2: for every sequence of engine operations (draw, undo,
pile-to-pile moves, moves to the foundation, with the interactive loop's
index-range checks on tableau references) applied to a freshly dealt board,
the multiset of card identities (rank, suit) across all piles — stock,
waste, the four foundations and every tableau pile — equals the initial
4×max_rank deck; no card is created or destroyed, even by rejected or
malformed requests, which leave the state unchanged. -/
theorem claim_c2_conservation (max_rank : Nat) (deck : List Card)
    (hdeck : deck.Perm (canonicalDeck max_rank)) (ops : List GameOp) :
    ((ops.foldl Solitaire.applyOp (Solitaire.init max_rank deck))).allCards
      = deckKeys (canonicalDeck max_rank) := by
  have main : ∀ (l : List GameOp) (t : Solitaire), t.goodHistory →
      ((l.foldl Solitaire.applyOp t)).allCards = t.allCards ∧
        ((l.foldl Solitaire.applyOp t)).goodHistory := by
    intro l
    induction l with
    | nil =>
      intro t ht
      exact ⟨rfl, ht⟩
    | cons op rest ih =>
      intro t ht
      obtain ⟨h1, -, h3⟩ := Solitaire.applyOp_preserves t op ht
      obtain ⟨ih1, ih2⟩ := ih (t.applyOp op) h3
      constructor
      · rw [List.foldl_cons, ih1, h1]
      · rw [List.foldl_cons]
        exact ih2
  obtain ⟨h1, -⟩ := main ops (Solitaire.init max_rank deck) (goodHistory_init max_rank deck)
  rw [h1, allCards_init, deckKeys_perm hdeck]

/-- Witness for claim C2: a four-operation game (draw, an undo, a rejected
move, a foundation move) on the freshly dealt 4-card one-rank deck
preserves the full card multiset. -/
theorem claim_c2_witness :
    (([GameOp.draw, GameOp.undo, GameOp.move (.tableau 0) (.tableau 1) 1,
        GameOp.toFoundation (.tableau 0), GameOp.move (.tableau 5) (.tableau 0) 1,
        GameOp.move (.tableau 0) (.tableau 0) 0].foldl Solitaire.applyOp
          (Solitaire.init 1 (canonicalDeck 1))).allCards = deckKeys (canonicalDeck 1)) :=
  claim_c2_conservation 1 (canonicalDeck 1) (List.Perm.refl _) _
